import Mathlib

/-!
Verification development for the vertical-tabs browser extension.

The definitions below are a shallow embedding of the extension's core:
* the tab mirroring engine (`src/vertical-tabs/src/lib/tab-engine.ts`):
  store handlers, the per-tab update debounce coalescer, the serialized
  view cache, and the read operations;
* the workspace state manager (`src/vertical-tabs/src/lib/storage.ts`,
  class `StateManager`): spaces, per-tab metadata, assignment, removal,
  and the membership rebuild performed on load;
* the service worker's `PIN_TAB` message handler
  (`src/background/service-worker.ts`);
* the side panel's delta reconciliation for `TAB_REMOVED`
  (`src/vertical-tabs/src/sidepanel/App.tsx`).

JavaScript containers are modelled explicitly: a `Map` with numeric keys
is an insertion-ordered association list (`mapSet` keeps the position of
an existing key and appends a fresh one); a plain object with integer-like
keys is an association list kept in ascending key order (`objSet`),
because JavaScript enumerates integer-like keys in ascending order.
`Date.now()` is an explicit timestamp argument.
-/

set_option linter.unusedVariables false

namespace Wfn

def mapGet {α : Type} (m : List (Nat × α)) (k : Nat) : Option α :=
  (m.find? (fun p => p.1 = k)).map Prod.snd

def mapSet {α : Type} : List (Nat × α) → Nat → α → List (Nat × α)
  | [], k, v => [(k, v)]
  | p :: rest, k, v => if p.1 = k then (k, v) :: rest else p :: mapSet rest k v

def mapDelete {α : Type} (m : List (Nat × α)) (k : Nat) : List (Nat × α) :=
  m.filter (fun p => p.1 ≠ k)

def objSet {α : Type} : List (Nat × α) → Nat → α → List (Nat × α)
  | [], k, v => [(k, v)]
  | p :: rest, k, v =>
    if k < p.1 then (k, v) :: p :: rest
    else if k = p.1 then (k, v) :: rest
    else p :: objSet rest k v

/-- JS `splice(i, 0, a)`: insert at position `i`, clamped to the end. -/
def spliceInsert {α : Type} (l : List α) (i : Nat) (a : α) : List α :=
  l.take i ++ a :: l.drop i

theorem mapGet_cons {α : Type} (p : Nat × α) (rest : List (Nat × α)) (k : Nat) :
    mapGet (p :: rest) k = if p.1 = k then some p.2 else mapGet rest k := by
  by_cases h : p.1 = k <;> simp [mapGet, List.find?_cons, h]

theorem mapGet_nil {α : Type} (k : Nat) : mapGet ([] : List (Nat × α)) k = none := rfl

theorem mapGet_mapSet_self {α : Type} (m : List (Nat × α)) (k : Nat) (v : α) :
    mapGet (mapSet m k v) k = some v := by
  induction m with
  | nil => simp [mapSet, mapGet_cons, mapGet_nil]
  | cons p rest ih =>
    by_cases h : p.1 = k
    · simp [mapSet, h, mapGet_cons]
    · simp [mapSet, h, mapGet_cons, ih]

theorem mapGet_mapSet_ne {α : Type} (m : List (Nat × α)) (k k' : Nat) (v : α)
    (h : k' ≠ k) : mapGet (mapSet m k v) k' = mapGet m k' := by
  have hkk : ¬ k = k' := fun hh => h hh.symm
  induction m with
  | nil => simp [mapSet, mapGet_cons, mapGet_nil, hkk]
  | cons p rest ih =>
    by_cases hp : p.1 = k
    · have hp' : ¬ p.1 = k' := by rw [hp]; exact hkk
      rw [mapSet, if_pos hp, mapGet_cons, mapGet_cons, if_neg hkk, if_neg hp']
    · rw [mapSet, if_neg hp, mapGet_cons, mapGet_cons, ih]

theorem mapGet_mapDelete_self {α : Type} (m : List (Nat × α)) (k : Nat) :
    mapGet (mapDelete m k) k = none := by
  induction m with
  | nil => rfl
  | cons p rest ih =>
    by_cases hp : p.1 = k
    · simpa [mapDelete, List.filter_cons, hp] using ih
    · simpa [mapDelete, List.filter_cons, hp, mapGet_cons] using ih

theorem mapGet_mapDelete_ne {α : Type} (m : List (Nat × α)) (k k' : Nat)
    (h : k' ≠ k) : mapGet (mapDelete m k) k' = mapGet m k' := by
  induction m with
  | nil => rfl
  | cons p rest ih =>
    by_cases hp : p.1 = k
    · have hp' : ¬ p.1 = k' := by rw [hp]; exact Ne.symm h
      have hf : mapDelete (p :: rest) k = mapDelete rest k := by
        simp [mapDelete, List.filter_cons, hp]
      rw [hf, mapGet_cons, if_neg hp', ih]
    · have hf : mapDelete (p :: rest) k = p :: mapDelete rest k := by
        simp [mapDelete, List.filter_cons, hp]
      rw [hf, mapGet_cons, mapGet_cons, ih]

theorem objGet_objSet_self {α : Type} (m : List (Nat × α)) (k : Nat) (v : α) :
    mapGet (objSet m k v) k = some v := by
  induction m with
  | nil => simp [objSet, mapGet_cons, mapGet_nil]
  | cons p rest ih =>
    rcases Nat.lt_trichotomy k p.1 with h | h | h
    · simp [objSet, h, mapGet_cons]
    · simp [objSet, Nat.lt_irrefl, h, mapGet_cons]
    · have h1 : ¬ k < p.1 := by omega
      have h2 : ¬ k = p.1 := by omega
      have h3 : ¬ p.1 = k := by omega
      simp [objSet, h1, h2, h3, mapGet_cons, ih]

theorem objGet_objSet_ne {α : Type} (m : List (Nat × α)) (k k' : Nat) (v : α)
    (h : k' ≠ k) : mapGet (objSet m k v) k' = mapGet m k' := by
  induction m with
  | nil => simp [objSet, mapGet_cons, mapGet_nil, Ne.symm h]
  | cons p rest ih =>
    have hkk : ¬ k = k' := fun hh => h hh.symm
    rcases Nat.lt_trichotomy k p.1 with hlt | heq | hgt
    · rw [objSet, if_pos hlt, mapGet_cons, if_neg hkk, mapGet_cons]
    · have h1 : ¬ k < p.1 := by omega
      have h3 : ¬ p.1 = k' := by omega
      rw [objSet, if_neg h1, if_pos heq, mapGet_cons, if_neg hkk, mapGet_cons, if_neg h3]
    · have h1 : ¬ k < p.1 := by omega
      have h2 : ¬ k = p.1 := by omega
      rw [objSet, if_neg h1, if_neg h2, mapGet_cons, mapGet_cons, ih]

theorem objSet_keys_mem {α : Type} (m : List (Nat × α)) (k : Nat) (v : α) (a : Nat) :
    a ∈ (objSet m k v).map Prod.fst ↔ a = k ∨ a ∈ m.map Prod.fst := by
  induction m with
  | nil => simp [objSet]
  | cons p rest ih =>
    rcases Nat.lt_trichotomy k p.1 with hlt | heq | hgt
    · simp [objSet, hlt]
    · have h1 : ¬ k < p.1 := by omega
      rw [objSet, if_neg h1, if_pos heq]
      simp only [List.map_cons, List.mem_cons]
      constructor
      · rintro (h | h)
        · exact Or.inl h
        · exact Or.inr (Or.inr h)
      · rintro (h | h | h)
        · exact Or.inl h
        · exact Or.inl (heq ▸ h)
        · exact Or.inr h
    · have h1 : ¬ k < p.1 := by omega
      have h2 : ¬ k = p.1 := by omega
      simp [objSet, h1, h2, ih]
      tauto

theorem objSet_keys_pairwise {α : Type} (m : List (Nat × α)) (k : Nat) (v : α)
    (h : (m.map Prod.fst).Pairwise (· < ·)) :
    ((objSet m k v).map Prod.fst).Pairwise (· < ·) := by
  induction m with
  | nil => simp [objSet]
  | cons p rest ih =>
    simp only [List.map_cons, List.pairwise_cons] at h
    rcases Nat.lt_trichotomy k p.1 with hlt | heq | hgt
    · simp only [objSet, if_pos hlt, List.map_cons, List.pairwise_cons]
      refine ⟨?_, h.1, h.2⟩
      intro a ha
      simp only [List.mem_cons, List.mem_map] at ha
      rcases ha with ha | ⟨q, hq, rfl⟩
      · omega
      · exact lt_trans hlt (h.1 q.1 (List.mem_map.mpr ⟨q, hq, rfl⟩))
    · have h1 : ¬ k < p.1 := by omega
      simp only [objSet, if_neg h1, if_pos heq, List.map_cons, List.pairwise_cons]
      exact ⟨fun a ha => heq ▸ h.1 a ha, h.2⟩
    · have h1 : ¬ k < p.1 := by omega
      have h2 : ¬ k = p.1 := by omega
      simp only [objSet, if_neg h1, if_neg h2, List.map_cons, List.pairwise_cons]
      refine ⟨?_, ih h.2⟩
      intro a ha
      rw [List.mem_map] at ha
      obtain ⟨q, hq, rfl⟩ := ha
      have : q.1 ∈ (objSet rest k v).map Prod.fst := List.mem_map.mpr ⟨q, hq, rfl⟩
      rw [objSet_keys_mem] at this
      rcases this with rfl | hmem
      · omega
      · exact h.1 q.1 hmem


/-! ### Tab engine data model (`tab-engine.ts`) -/

/-- Fields of a `chrome.tabs.Tab` notification object that the engine reads
or stores (the optional Chrome fields the engine never touches are omitted;
`id` and `windowId` are total here, matching the code paths past the
`undefined` guards). -/
structure ChromeTab where
  id : Nat
  windowId : Nat
  index : Nat
  pinned : Bool
  active : Bool
  status : Option String
  title : Option String
  url : Option String
  favIconUrl : Option String
  audible : Option Bool
  mutedInfo : Option Bool
  deriving Repr, DecidableEq

/-- `ExtendedTab` from `types/index.ts`: a Chrome tab plus the engine-derived
`lastActiveAt` and `spaceId`. -/
structure ExtendedTab extends ChromeTab where
  lastActiveAt : Option Nat
  spaceId : Option String
  deriving Repr, DecidableEq

/-- `ExtendedWindow` from `types/index.ts`. -/
structure ExtendedWindow where
  id : Nat
  focused : Bool
  tabIds : List Nat
  deriving Repr, DecidableEq

/-- `TabState`: the engine's internal mirror of Chrome's tabs and windows.
`lastUpdated` is the `Date.now()` stamp recorded by the last mutation. -/
structure TabState where
  tabs : List (Nat × ExtendedTab)
  windows : List (Nat × ExtendedWindow)
  activeTabId : Option Nat
  activeWindowId : Option Nat
  lastUpdated : Nat
  deriving Repr, DecidableEq

/-- Which keys are present on a `chrome.tabs.TabChangeInfo` patch object.
`hasOther` stands for presence of any key outside the engine's allow-list
(for example `discarded` or `groupId`). -/
structure ChangeInfo where
  hasStatus : Bool
  hasTitle : Bool
  hasUrl : Bool
  hasFavIconUrl : Bool
  hasPinned : Bool
  hasAudible : Bool
  hasMutedInfo : Bool
  hasOther : Bool
  deriving Repr, DecidableEq

/-- `meaningfulChanges.some(key => key in changeInfo)` from
`handleTabUpdated`: the patch touches at least one allow-listed field. -/
def hasMeaningfulChange (ci : ChangeInfo) : Bool :=
  ci.hasStatus || ci.hasTitle || ci.hasUrl || ci.hasFavIconUrl ||
    ci.hasPinned || ci.hasAudible || ci.hasMutedInfo

/-- The typed deltas the engine broadcasts for tab events. -/
inductive BroadcastMsg where
  | tabCreated (tab : ExtendedTab) (windowId : Nat)
  | tabRemoved (tabId : Nat) (windowId : Nat)
  | tabUpdated (tab : ExtendedTab)
  | tabActivated (tabId : Nat) (windowId : Nat)
  | tabMoved (tabId fromIndex toIndex windowId : Nat)
  deriving Repr, DecidableEq

/-! ### Tab engine store handlers -/

/-- `chrome.tabs.onCreated` listener body. -/
def onCreated (st : TabState) (tab : ChromeTab) (now : Nat) :
    TabState × List BroadcastMsg :=
  let extendedTab : ExtendedTab :=
    { toChromeTab := tab, lastActiveAt := some now, spaceId := none }
  let tabs := mapSet st.tabs tab.id extendedTab
  let windows :=
    match mapGet st.windows tab.windowId with
    | some w => mapSet st.windows tab.windowId
        { w with tabIds := w.tabIds ++ [tab.id] }
    | none => st.windows
  ({ st with tabs := tabs, windows := windows, lastUpdated := now },
   [BroadcastMsg.tabCreated extendedTab tab.windowId])

/-- `chrome.tabs.onRemoved` listener body, store part (the debounce-timer
cancellation lives in `onRemovedEvent` below). -/
def onRemovedState (st : TabState) (tabId windowId now : Nat) : TabState :=
  let tabs := mapDelete st.tabs tabId
  let windows :=
    match mapGet st.windows windowId with
    | some w => mapSet st.windows windowId
        { w with tabIds := w.tabIds.filter (fun id => id ≠ tabId) }
    | none => st.windows
  { st with
    tabs := tabs
    windows := windows
    activeTabId := if st.activeTabId = some tabId then none else st.activeTabId
    lastUpdated := now }

/-- `chrome.tabs.onActivated` listener body (it reads `lastActiveAt` for the
tab when present, records the active tab id, stamps the clock, and
broadcasts; it does not touch `activeWindowId`). -/
def onActivated (st : TabState) (tabId windowId now : Nat) :
    TabState × List BroadcastMsg :=
  let tabs :=
    match mapGet st.tabs tabId with
    | some t => mapSet st.tabs tabId { t with lastActiveAt := some now }
    | none => st.tabs
  ({ st with tabs := tabs, activeTabId := some tabId, lastUpdated := now },
   [BroadcastMsg.tabActivated tabId windowId])

/-- `chrome.tabs.onMoved` listener body: reorder the window's id list via
filter plus `splice(toIndex, 0, tabId)`, update the tab's index when the
tab is known, stamp the clock, broadcast. -/
def onMoved (st : TabState) (tabId fromIndex toIndex windowId now : Nat) :
    TabState × List BroadcastMsg :=
  let windows :=
    match mapGet st.windows windowId with
    | some w => mapSet st.windows windowId
        { w with tabIds :=
            spliceInsert (w.tabIds.filter (fun id => id ≠ tabId)) toIndex tabId }
    | none => st.windows
  let tabs :=
    match mapGet st.tabs tabId with
    | some t => mapSet st.tabs tabId { t with index := toIndex }
    | none => st.tabs
  ({ st with windows := windows, tabs := tabs, lastUpdated := now },
   [BroadcastMsg.tabMoved tabId fromIndex toIndex windowId])

/-- `handleTabUpdated`: the debounced update application. Patches touching
no allow-listed field are dropped without mutation or broadcast; otherwise
the notification's full tab object is stored, preserving the existing
`lastActiveAt` and `spaceId`. -/
def handleTabUpdated (st : TabState) (tabId : Nat) (changeInfo : ChangeInfo)
    (tab : ChromeTab) (now : Nat) : TabState × List BroadcastMsg :=
  if hasMeaningfulChange changeInfo then
    let existingTab := mapGet st.tabs tabId
    let extendedTab : ExtendedTab :=
      { toChromeTab := tab,
        lastActiveAt := existingTab.bind (fun t => t.lastActiveAt),
        spaceId := existingTab.bind (fun t => t.spaceId) }
    ({ st with tabs := mapSet st.tabs tabId extendedTab, lastUpdated := now },
     [BroadcastMsg.tabUpdated extendedTab])
  else (st, [])

/-! ### Update coalescer (per-tab debounce timers) -/

/-- Engine state including the `updateDebounceTimers` map: a pending timer
for a tab id carries the `changeInfo` and `tab` captured by the most
recently scheduled callback. -/
structure EngineState where
  state : TabState
  pending : List (Nat × (ChangeInfo × ChromeTab))
  deriving Repr, DecidableEq

/-- `chrome.tabs.onUpdated` listener: clear any existing timer for the tab
and schedule a new one capturing this notification's arguments. No store
mutation and no broadcast happen here. -/
def onUpdatedEvent (es : EngineState) (tabId : Nat) (ci : ChangeInfo)
    (tab : ChromeTab) : EngineState :=
  { es with pending := mapSet es.pending tabId (ci, tab) }

/-- A pending debounce timer for `tabId` fires: run `handleTabUpdated` with
the captured arguments, then drop the timer entry. With no pending timer
nothing happens (a cleared timer cannot fire). -/
def fireTimer (es : EngineState) (tabId now : Nat) :
    EngineState × List BroadcastMsg :=
  match mapGet es.pending tabId with
  | none => (es, [])
  | some citab =>
    let r := handleTabUpdated es.state tabId citab.1 citab.2 now
    ({ state := r.1, pending := mapDelete es.pending tabId }, r.2)

/-- `chrome.tabs.onRemoved` listener at the engine level: clear any pending
debounce timer for the tab, apply the store removal, broadcast. -/
def onRemovedEvent (es : EngineState) (tabId windowId now : Nat) :
    EngineState × List BroadcastMsg :=
  ({ state := onRemovedState es.state tabId windowId now,
     pending := mapDelete es.pending tabId },
   [BroadcastMsg.tabRemoved tabId windowId])

/-- The interleavable events around the update debouncer: an update
notification, a removal notification, and a timer firing. -/
inductive TabEvent where
  | updated (tabId : Nat) (ci : ChangeInfo) (tab : ChromeTab)
  | removed (tabId windowId now : Nat)
  | fire (tabId now : Nat)
  deriving Repr, DecidableEq

def stepEvent (es : EngineState) : TabEvent → EngineState
  | TabEvent.updated tabId ci tab => onUpdatedEvent es tabId ci tab
  | TabEvent.removed tabId windowId now => (onRemovedEvent es tabId windowId now).1
  | TabEvent.fire tabId now => (fireTimer es tabId now).1

def runEvents (es : EngineState) (evs : List TabEvent) : EngineState :=
  evs.foldl stepEvent es

/-- Does this event schedule an update for tab id `i`? -/
def isUpdatedFor (i : Nat) : TabEvent → Bool
  | TabEvent.updated tabId _ _ => tabId = i
  | _ => false

/-! ### Serialized view cache -/

/-- `SerializedTabState`: the flat projection served to observers. -/
structure SerializedTabState where
  tabs : List ExtendedTab
  windows : List ExtendedWindow
  activeTabId : Option Nat
  activeWindowId : Option Nat
  lastUpdated : Nat
  deriving Repr, DecidableEq

/-- The projection built when the cache is rebuilt. -/
def serializeState (st : TabState) : SerializedTabState :=
  { tabs := st.tabs.map Prod.snd,
    windows := st.windows.map Prod.snd,
    activeTabId := st.activeTabId,
    activeWindowId := st.activeWindowId,
    lastUpdated := st.lastUpdated }

/-- Engine state plus the memoization fields `serializedStateCache` and
`cacheLastUpdated`. -/
structure EngineCache where
  state : TabState
  serializedStateCache : Option SerializedTabState
  cacheLastUpdated : Nat
  deriving Repr, DecidableEq

/-- `getSerializedState()`: return the cached projection when the cache is
populated and its stamp equals the store's `lastUpdated`; otherwise rebuild
and repopulate the cache. -/
def getSerializedState (e : EngineCache) : SerializedTabState × EngineCache :=
  match e.serializedStateCache with
  | some cached =>
    if e.cacheLastUpdated = e.state.lastUpdated then (cached, e)
    else
      let rebuilt := serializeState e.state
      (rebuilt, { e with
                  serializedStateCache := some rebuilt
                  cacheLastUpdated := e.state.lastUpdated })
  | none =>
    let rebuilt := serializeState e.state
    (rebuilt, { e with
                serializedStateCache := some rebuilt
                cacheLastUpdated := e.state.lastUpdated })

/-! ### Engine reads -/

/-- `getTabsForWindow(windowId)`: resolve the window's id list against the
tab map, drop dangling ids, and stable-sort by ascending tab index
(the JS comparator `(a.index ?? 0) - (b.index ?? 0)`). -/
def getTabsForWindow (st : TabState) (windowId : Nat) : List ExtendedTab :=
  match mapGet st.windows windowId with
  | none => []
  | some w =>
    ((w.tabIds.map (fun id => mapGet st.tabs id)).reduceOption).mergeSort
      (fun a b => a.index ≤ b.index)


/-! ### Workspace state manager (`storage.ts`, class `StateManager`) -/

/-- `Space` from `types/index.ts` (normalized shape: all fields present). -/
structure Space where
  id : String
  name : String
  color : String
  icon : Option String
  tabIds : List Nat
  rules : List String
  createdAt : Nat
  lastAccessedAt : Nat
  deriving Repr, DecidableEq

/-- One entry of the persisted per-tab metadata map. -/
structure TabMeta where
  spaceId : Option String
  lastActiveAt : Option Nat
  deriving Repr, DecidableEq

/-- A partial metadata record as passed to `setTabMetadata` (a field set to
`none` is absent from the JS object literal and is not spread over). -/
structure MetaPatch where
  spaceId : Option String
  lastActiveAt : Option Nat
  deriving Repr, DecidableEq

def emptyMeta : TabMeta := { spaceId := none, lastActiveAt := none }

/-- JS object spread `{...old, ...patch}` over the two metadata fields. -/
def mergeMeta (old : TabMeta) (p : MetaPatch) : TabMeta :=
  { spaceId := match p.spaceId with | some s => some s | none => old.spaceId
    lastActiveAt := match p.lastActiveAt with | some n => some n | none => old.lastActiveAt }

/-- The `StateManager`'s mutable state relevant to workspaces: the spaces
array and the per-tab metadata object (settings and the persistence timer
are irrelevant to the claims and omitted). -/
structure SMState where
  spaces : List Space
  tabMetadata : List (Nat × TabMeta)
  deriving Repr, DecidableEq

/-- JS `x || 'default'`: both a missing value and the empty string are
falsy and fall through to the default-space id. -/
def jsOrDefault (s : Option String) : String :=
  match s with
  | some v => if v = "" then "default" else v
  | none => "default"

/-- `this.tabMetadata[tabId]?.spaceId || DEFAULT_SPACE_ID`: the workspace id
a tab is effectively stored under. -/
def storedSpaceId (meta : List (Nat × TabMeta)) (tabId : Nat) : String :=
  jsOrDefault ((mapGet meta tabId).bind (fun m => m.spaceId))

/-- `this.spaces.find(s => s.id === spaceId)`. -/
def findSpace (spaces : List Space) (spaceId : String) : Option Space :=
  spaces.find? (fun s => s.id = spaceId)

/-- Mutate (in JS, through the object reference returned by `find`) the
first space whose id is `spaceId`; no-op when there is none. -/
def updateFirstSpace (spaces : List Space) (spaceId : String) (f : Space → Space) :
    List Space :=
  match spaces with
  | [] => []
  | s :: rest =>
    if s.id = spaceId then f s :: rest else s :: updateFirstSpace rest spaceId f

/-- `setTabMetadata(tabId, data)`: spread-merge the patch over the existing
entry (or over `{}` when absent). -/
def setTabMetadata (st : SMState) (tabId : Nat) (p : MetaPatch) : SMState :=
  let merged := mergeMeta ((mapGet st.tabMetadata tabId).getD emptyMeta) p
  { st with tabMetadata := objSet st.tabMetadata tabId merged }

/-- `removeTabMetadata(tabId)`: delete the metadata entry and strip the id
from every space's member list. -/
def removeTabMetadataSM (st : SMState) (tabId : Nat) : SMState :=
  { spaces := st.spaces.map (fun s => { s with tabIds := s.tabIds.filter (fun id => id ≠ tabId) })
    tabMetadata := mapDelete st.tabMetadata tabId }

/-- `addSpace(name, color, icon)`: push a fresh space with id
`space_<Date.now()>` and empty membership. -/
def addSpace (st : SMState) (name color : String) (icon : Option String) (now : Nat) :
    Space × SMState :=
  let space : Space :=
    { id := "space_" ++ toString now
      name := name
      color := color
      icon := icon
      tabIds := []
      rules := []
      createdAt := now
      lastAccessedAt := now }
  (space, { st with spaces := st.spaces ++ [space] })

/-- The field subset `updateSpace` may patch (`id` and `tabIds` excluded by
its type in the source). -/
structure SpaceUpdates where
  name : Option String
  color : Option String
  icon : Option (Option String)
  rules : Option (List String)
  lastAccessedAt : Option Nat
  deriving Repr, DecidableEq

def applySpaceUpdates (s : Space) (u : SpaceUpdates) : Space :=
  { s with
    name := u.name.getD s.name
    color := u.color.getD s.color
    icon := u.icon.getD s.icon
    rules := u.rules.getD s.rules
    lastAccessedAt := u.lastAccessedAt.getD s.lastAccessedAt }

/-- `updateSpace(spaceId, updates)`: `Object.assign` onto the first space
with that id, when present. -/
def updateSpaceSM (st : SMState) (spaceId : String) (u : SpaceUpdates) : SMState :=
  { st with spaces := updateFirstSpace st.spaces spaceId (fun s => applySpaceUpdates s u) }

/-- `renameSpace` delegates to `updateSpace` with a name-only patch. -/
def renameSpace (st : SMState) (spaceId : String) (name : String) : SMState :=
  updateSpaceSM st spaceId
    { name := some name, color := none, icon := none, rules := none, lastAccessedAt := none }

/-- Guarded push used by membership insertion
(`if (!space.tabIds.includes(tabId)) space.tabIds.push(tabId)`). -/
def pushTabIfAbsent (tabId : Nat) (s : Space) : Space :=
  if tabId ∈ s.tabIds then s else { s with tabIds := s.tabIds ++ [tabId] }

/-- `assignTabToSpace(tabId, spaceId)`: early return when the requested id
equals the tab's effective stored id; otherwise remove from the previous
space's list, insert into the target (or the default space when the target
id names no space), write the metadata, and return the id actually used. -/
def assignTabToSpace (st : SMState) (tabId : Nat) (spaceId : String) :
    String × SMState :=
  let previousSpaceId := storedSpaceId st.tabMetadata tabId
  if previousSpaceId = spaceId then (previousSpaceId, st)
  else
    let spaces1 := updateFirstSpace st.spaces previousSpaceId
      (fun s => { s with tabIds := s.tabIds.filter (fun id => id ≠ tabId) })
    let nextSpace :=
      match findSpace spaces1 spaceId with
      | some s => some s
      | none => findSpace spaces1 "default"
    let targetSpaceId := (nextSpace.map Space.id).getD "default"
    let spaces2 :=
      match nextSpace with
      | some s => updateFirstSpace spaces1 s.id (pushTabIfAbsent tabId)
      | none => spaces1
    let meta2 := objSet st.tabMetadata tabId
      (mergeMeta ((mapGet st.tabMetadata tabId).getD emptyMeta)
        { spaceId := some targetSpaceId, lastActiveAt := none })
    (targetSpaceId, { spaces := spaces2, tabMetadata := meta2 })

/-- Accumulator threading the default space's member list, the metadata
object, and the `movedTabIds` set (as an insertion-ordered list) through
the two migration loops of `removeSpace`. -/
structure MigrateAcc where
  defaultTabIds : List Nat
  meta : List (Nat × TabMeta)
  moved : List Nat
  deriving Repr, DecidableEq

/-- Body of the first `removeSpace` loop (over the removed space's member
list): push into the default list when absent, spread-merge
`spaceId: 'default'` into the tab's metadata, record the id as moved. -/
def migrateMemberStep (acc : MigrateAcc) (tid : Nat) : MigrateAcc :=
  { defaultTabIds :=
      if tid ∈ acc.defaultTabIds then acc.defaultTabIds else acc.defaultTabIds ++ [tid]
    meta := objSet acc.meta tid
      (mergeMeta ((mapGet acc.meta tid).getD emptyMeta)
        { spaceId := some "default", lastActiveAt := none })
    moved := if tid ∈ acc.moved then acc.moved else acc.moved ++ [tid] }

/-- Body of the second `removeSpace` loop (over the metadata keys): when the
current entry still references the removed space, point it at the default
space, push the id into the default list when absent, record it as moved.
Only the key of the iterated entry is used; the tests read the live map. -/
def migrateMetaStep (spaceId : String) (acc : MigrateAcc) (entry : Nat × TabMeta) :
    MigrateAcc :=
  if (mapGet acc.meta entry.1).bind (fun m => m.spaceId) = some spaceId then
    { defaultTabIds :=
        if entry.1 ∈ acc.defaultTabIds then acc.defaultTabIds else acc.defaultTabIds ++ [entry.1]
      meta := objSet acc.meta entry.1
        { ((mapGet acc.meta entry.1).getD emptyMeta) with spaceId := some "default" }
      moved := if entry.1 ∈ acc.moved then acc.moved else acc.moved ++ [entry.1] }
  else acc

/-- `removeSpace(spaceId)`: no-op returning `[]` for the default id or when
either the default space or the target is missing; otherwise drop the
target space, migrate its members and any metadata still referencing it
into the default space, and return the moved ids. -/
def removeSpace (st : SMState) (spaceId : String) : List Nat × SMState :=
  if spaceId = "default" then ([], st)
  else
    match findSpace st.spaces "default", findSpace st.spaces spaceId with
    | some defaultSpace, some spaceToRemove =>
      let spacesF := st.spaces.filter (fun s => s.id ≠ spaceId)
      let acc0 : MigrateAcc :=
        { defaultTabIds := defaultSpace.tabIds, meta := st.tabMetadata, moved := [] }
      let acc1 := spaceToRemove.tabIds.foldl migrateMemberStep acc0
      let acc2 := acc1.meta.foldl (migrateMetaStep spaceId) acc1
      let spacesOut := updateFirstSpace spacesF "default"
        (fun s => { s with tabIds := acc2.defaultTabIds })
      (acc2.moved, { spaces := spacesOut, tabMetadata := acc2.meta })
    | _, _ => ([], st)

/-! ### Load path: normalization and membership rebuild -/

/-- The `DEFAULT_SPACE` literal (timestamps taken at normalization time). -/
def defaultSpaceAt (now : Nat) : Space :=
  { id := "default"
    name := "Default"
    color := "#4a9eff"
    icon := none
    tabIds := []
    rules := []
    createdAt := now
    lastAccessedAt := now }

/-- `normalizeSpaces` body for one persisted space at position `idx`
(falsy string fields are replaced; list/number fields are typed here). -/
def normalizeOneSpace (now idx : Nat) (s : Space) : Space :=
  { id := if s.id = "" then "space_" ++ toString now ++ "_" ++ toString idx else s.id
    name := if s.name = "" then "Space " ++ toString (idx + 1) else s.name
    color := if s.color = "" then "#4a9eff" else s.color
    icon := s.icon
    tabIds := s.tabIds
    rules := s.rules
    createdAt := s.createdAt
    lastAccessedAt := s.lastAccessedAt }

/-- `normalizeSpaces`: normalize every persisted space and prepend the
default space when no space carries the default id. -/
def normalizeSpaces (now : Nat) (spaces : List Space) : List Space :=
  let normalized := spaces.enum.map (fun p => normalizeOneSpace now p.1 p.2)
  if normalized.any (fun s => s.id = "default") then normalized
  else defaultSpaceAt now :: normalized

/-- Index of the last space carrying `spaceId`: `new Map(spaces.map(s =>
[s.id, s]))` keeps the last entry per key, and rebuild mutates through the
object stored there. -/
def lastSpaceIdx (spaces : List Space) (spaceId : String) : Option Nat :=
  ((spaces.enum.filter (fun p => p.2.id = spaceId)).getLast?).map Prod.fst

def modifyIdx {α : Type} : List α → Nat → (α → α) → List α
  | [], _, _ => []
  | a :: rest, 0, f => f a :: rest
  | a :: rest, n + 1, f => a :: modifyIdx rest n f

/-- One iteration of `rebuildSpaceTabIds` for a snapshot metadata entry:
resolve the entry's space (falling back to the default space), push the tab
id into that space's rebuilt list, and rewrite the entry's `spaceId` when
it differs from the id of the space actually used. -/
def rebuildStep (acc : List Space × List (Nat × TabMeta)) (entry : Nat × TabMeta) :
    List Space × List (Nat × TabMeta) :=
  let tabId := entry.1
  let targetSpaceId := jsOrDefault entry.2.spaceId
  let idx :=
    match lastSpaceIdx acc.1 targetSpaceId with
    | some i => some i
    | none => lastSpaceIdx acc.1 "default"
  match idx with
  | none => acc
  | some i =>
    let sid := ((acc.1[i]?).map Space.id).getD "default"
    (modifyIdx acc.1 i (pushTabIfAbsent tabId),
     if entry.2.spaceId ≠ some sid
       then objSet acc.2 tabId { entry.2 with spaceId := some sid }
       else acc.2)

/-- `rebuildSpaceTabIds()`: clear every space's member list and repopulate
from the per-tab metadata entries (ascending key order). -/
def rebuildSpaceTabIds (st : SMState) : SMState :=
  let cleared := st.spaces.map (fun s => { s with tabIds := [] })
  let res := st.tabMetadata.foldl rebuildStep (cleared, st.tabMetadata)
  { spaces := res.1, tabMetadata := res.2 }

/-- `StateManager.initialize()`: load persisted spaces (normalized, default
ensured) and metadata, then rebuild membership from metadata. -/
def smInitialize (persistedSpaces : List Space) (persistedMeta : List (Nat × TabMeta))
    (now : Nat) : SMState :=
  rebuildSpaceTabIds
    { spaces := normalizeSpaces now persistedSpaces, tabMetadata := persistedMeta }

/-- The `StateManager` states the program can put the manager in: an
`initialize()` from arbitrary well-formed persisted data (unique space ids
after normalization, strictly ascending metadata keys as JS objects have),
followed by any sequence of the mutating calls the code base performs.
`setTabMetadata` is only ever invoked with a `lastActiveAt`-only patch;
`addSpace` ids are generated from distinct `Date.now()` values, captured by
the freshness hypothesis. -/
inductive SMReachable : SMState → Prop where
  | init (persistedSpaces : List Space) (persistedMeta : List (Nat × TabMeta)) (now : Nat)
      (hids : ((normalizeSpaces now persistedSpaces).map Space.id).Nodup)
      (hmeta : (persistedMeta.map Prod.fst).Pairwise (· < ·)) :
      SMReachable (smInitialize persistedSpaces persistedMeta now)
  | setMeta (st : SMState) (tabId t : Nat) :
      SMReachable st →
      SMReachable (setTabMetadata st tabId { spaceId := none, lastActiveAt := some t })
  | removeMeta (st : SMState) (tabId : Nat) :
      SMReachable st → SMReachable (removeTabMetadataSM st tabId)
  | assign (st : SMState) (tabId : Nat) (spaceId : String) :
      SMReachable st → SMReachable (assignTabToSpace st tabId spaceId).2
  | add (st : SMState) (name color : String) (icon : Option String) (now : Nat)
      (hfresh : ∀ s ∈ st.spaces, s.id ≠ "space_" ++ toString now) :
      SMReachable st → SMReachable (addSpace st name color icon now).2
  | remove (st : SMState) (spaceId : String) :
      SMReachable st → SMReachable (removeSpace st spaceId).2
  | patch (st : SMState) (spaceId : String) (u : SpaceUpdates) :
      SMReachable st → SMReachable (updateSpaceSM st spaceId u)


/-! ### Service worker: `PIN_TAB` message handler -/

/-- The host-side view of a tab that the pin handler queries. -/
structure HostTab where
  id : Nat
  pinned : Bool
  deriving Repr, DecidableEq

/-- Responses the `PIN_TAB` branch can send: `{success:true}`, the typed
limit rejection `{success:false, error}`, or the outer catch's error when
the host call is rejected. -/
inductive PinResponse where
  | ok
  | limitError (error : String)
  | caughtError
  deriving Repr, DecidableEq

/-- `chrome.tabs.update(tabId, {pinned})` against the host tab set; the
call is rejected when the id names no tab. -/
def chromeTabsUpdatePinned (world : List HostTab) (tabId : Nat) (pinned : Bool) :
    Except String (List HostTab) :=
  if world.any (fun t => t.id = tabId) then
    Except.ok (world.map (fun t => if t.id = tabId then { t with pinned := pinned } else t))
  else Except.error "No tab with given id"

/-- `allTabs.filter(t => t.pinned).length`. -/
def countPinned (world : List HostTab) : Nat :=
  (world.filter (fun t => t.pinned)).length

/-- `handleMessage` case `PIN_TAB`: when pinning, count the pinned tabs and
reject synchronously once 6 are pinned; otherwise forward the update to the
host. A rejected host call is caught and reported as an error response. -/
def handlePinTab (world : List HostTab) (tabId : Nat) (pinned : Bool) :
    PinResponse × List HostTab :=
  if pinned = true ∧ 6 ≤ countPinned world then
    (PinResponse.limitError "Maximum 6 pinned tabs allowed", world)
  else
    match chromeTabsUpdatePinned world tabId pinned with
    | Except.ok w => (PinResponse.ok, w)
    | Except.error _ => (PinResponse.caughtError, world)

/-! ### Observer reconciler (side panel) -/

/-- `App.tsx` message case `TAB_REMOVED`:
`setTabs(prev => prev.filter(t => t.id !== message.tabId))`. -/
def applyTabRemoved (tabs : List ExtendedTab) (tabId : Nat) : List ExtendedTab :=
  tabs.filter (fun t => t.id ≠ tabId)

/-! ### Mutations of the engine store (for the cache-freshness claim) -/

/-- The store mutations an engine notification can apply. -/
inductive EngineMutation where
  | createdM (tab : ChromeTab)
  | removedM (tabId windowId : Nat)
  | activatedM (tabId windowId : Nat)
  | movedM (tabId fromIndex toIndex windowId : Nat)
  | updatedFlushM (tabId : Nat) (ci : ChangeInfo) (tab : ChromeTab)
  deriving Repr, DecidableEq

def applyEngineMutation (st : TabState) (m : EngineMutation) (now : Nat) : TabState :=
  match m with
  | EngineMutation.createdM tab => (onCreated st tab now).1
  | EngineMutation.removedM tabId windowId => onRemovedState st tabId windowId now
  | EngineMutation.activatedM tabId windowId => (onActivated st tabId windowId now).1
  | EngineMutation.movedM a b c d => (onMoved st a b c d now).1
  | EngineMutation.updatedFlushM tabId ci tab => (handleTabUpdated st tabId ci tab now).1

/-- A notification is an accepted mutation when it actually mutates the
store and stamps the clock: every kind except an update flush whose patch
touches no allow-listed field. -/
def acceptedMutation (m : EngineMutation) : Bool :=
  match m with
  | EngineMutation.updatedFlushM _ ci _ => hasMeaningfulChange ci
  | _ => true

/-- A burst of update notifications for one tab id, arriving inside the
quiet window (so no timer fires in between). -/
def applyBurst (es : EngineState) (tabId : Nat)
    (notifs : List (ChangeInfo × ChromeTab)) : EngineState :=
  notifs.foldl (fun e n => onUpdatedEvent e tabId n.1 n.2) es

/-! ### StateManager invariant -/

/-- Every tab id listed in some space's member list is effectively stored
under exactly that space's id. -/
def listedSpaceMatches (st : SMState) : Prop :=
  ∀ s ∈ st.spaces, ∀ t ∈ s.tabIds, storedSpaceId st.tabMetadata t = s.id

/-- The inductive invariant of reachable `StateManager` states: space ids
are distinct and nonempty, metadata keys are strictly ascending, and
membership agrees with the stored per-tab space id. -/
def SMInv (st : SMState) : Prop :=
  (st.spaces.map Space.id).Nodup ∧ (∀ s ∈ st.spaces, s.id ≠ "") ∧
  (st.tabMetadata.map Prod.fst).Pairwise (· < ·) ∧ listedSpaceMatches st

/-! ### Concrete fixtures used by witnesses and counterexamples -/

/-- A concrete Chrome tab with the given id (index 0, window 5). -/
def sampleChromeTab (i : Nat) : ChromeTab :=
  { id := i
    windowId := 5
    index := 0
    pinned := false
    active := false
    status := some "complete"
    title := some "Tab"
    url := some "https://example.test/"
    favIconUrl := none
    audible := none
    mutedInfo := none }

def sampleExtTab (i : Nat) : ExtendedTab :=
  { toChromeTab := sampleChromeTab i, lastActiveAt := some 1, spaceId := none }

/-- A patch whose only present key is `status` (allow-listed). -/
def statusChange : ChangeInfo :=
  { hasStatus := true
    hasTitle := false
    hasUrl := false
    hasFavIconUrl := false
    hasPinned := false
    hasAudible := false
    hasMutedInfo := false
    hasOther := false }

/-- A patch with no allow-listed key present (only an ignorable one). -/
def ignorableChange : ChangeInfo :=
  { hasStatus := false
    hasTitle := false
    hasUrl := false
    hasFavIconUrl := false
    hasPinned := false
    hasAudible := false
    hasMutedInfo := false
    hasOther := true }

/-- A concrete store: window 5 holds tabs 1 and 2 (and a dangling id 99 in
its order list); the clock reads 1. -/
def sampleTabState : TabState :=
  { tabs := [(1, sampleExtTab 1), (2, { sampleExtTab 2 with index := 1 })]
    windows := [(5, { id := 5, focused := true, tabIds := [2, 1, 99] })]
    activeTabId := some 1
    activeWindowId := some 5
    lastUpdated := 1 }

/-! ### C9: idempotence of the `TAB_REMOVED` reconciliation -/

/-- C9: in the observer reconciler, applying a `TAB_REMOVED` delta twice
yields the same replica as applying it once, and applying it to a replica
not containing the id leaves the replica unchanged. -/
theorem tabRemoved_idempotent (tabs : List ExtendedTab) (tabId : Nat) :
    applyTabRemoved (applyTabRemoved tabs tabId) tabId = applyTabRemoved tabs tabId ∧
    ((∀ t ∈ tabs, t.id ≠ tabId) → applyTabRemoved tabs tabId = tabs) := by
  constructor
  · simp [applyTabRemoved, List.filter_filter]
  · intro h
    apply List.filter_eq_self.mpr
    intro t ht
    simpa using h t ht

/-- Witness for C9 at a concrete replica: removing id 1 from a replica that
only holds tab 2 leaves it unchanged. -/
theorem tabRemoved_idempotent_witness :
    applyTabRemoved [sampleExtTab 2] 1 = [sampleExtTab 2] :=
  (tabRemoved_idempotent [sampleExtTab 2] 1).2 (by decide)

/-! ### C4: pinned-tab limit -/

/-- C4: a `PIN_TAB` request to pin when 6 tabs are already pinned is
rejected synchronously with the typed reason and no mutation (the world and
its pinned count are unchanged); a pin request below the limit, or any
unpin request, for an existing tab is applied and reports success. -/
theorem pinTab_limit_spec (world : List HostTab) (tabId : Nat) :
    (countPinned world = 6 →
      handlePinTab world tabId true =
        (PinResponse.limitError "Maximum 6 pinned tabs allowed", world) ∧
      countPinned (handlePinTab world tabId true).2 = 6) ∧
    (countPinned world < 6 → (∃ t ∈ world, t.id = tabId) →
      (handlePinTab world tabId true).1 = PinResponse.ok ∧
      ∀ t ∈ (handlePinTab world tabId true).2, t.id = tabId → t.pinned = true) ∧
    ((∃ t ∈ world, t.id = tabId) →
      (handlePinTab world tabId false).1 = PinResponse.ok ∧
      ∀ t ∈ (handlePinTab world tabId false).2, t.id = tabId → t.pinned = false) := by
  refine ⟨?_, ?_, ?_⟩
  · intro h6
    have hle : 6 ≤ countPinned world := by omega
    constructor
    · simp [handlePinTab, hle]
    · simp [handlePinTab, hle, h6]
  · intro hlt hex
    have hle : ¬ 6 ≤ countPinned world := by omega
    have hany : world.any (fun t => t.id = tabId) = true := by
      rw [List.any_eq_true]
      obtain ⟨t, ht, hid⟩ := hex
      exact ⟨t, ht, by simp [hid]⟩
    constructor
    · simp [handlePinTab, hle, chromeTabsUpdatePinned, hany]
    · intro t ht hid
      simp only [handlePinTab, chromeTabsUpdatePinned] at ht
      rw [if_neg (by simp [hle])] at ht
      rw [if_pos hany] at ht
      simp only [List.mem_map] at ht
      obtain ⟨u, hu, hut⟩ := ht
      subst hut
      by_cases h : u.id = tabId
      · simp [h]
      · simp only [if_neg h] at hid ⊢
        exact absurd hid h
  · intro hex
    have hany : world.any (fun t => t.id = tabId) = true := by
      rw [List.any_eq_true]
      obtain ⟨t, ht, hid⟩ := hex
      exact ⟨t, ht, by simp [hid]⟩
    constructor
    · simp [handlePinTab, chromeTabsUpdatePinned, hany]
    · intro t ht hid
      simp only [handlePinTab, chromeTabsUpdatePinned] at ht
      rw [if_neg (by simp)] at ht
      rw [if_pos hany] at ht
      simp only [List.mem_map] at ht
      obtain ⟨u, hu, hut⟩ := ht
      subst hut
      by_cases h : u.id = tabId
      · simp [h]
      · simp only [if_neg h] at hid ⊢
        exact absurd hid h

/-- A world of six pinned tabs (ids 1..6) plus the unpinned tab 7. -/
def sixPinnedWorld : List HostTab :=
  [⟨1, true⟩, ⟨2, true⟩, ⟨3, true⟩, ⟨4, true⟩, ⟨5, true⟩, ⟨6, true⟩, ⟨7, false⟩]

/-- Witness for C4: with 6 tabs pinned, pinning tab 7 is rejected with the
typed reason and the pinned count stays 6; unpinning tab 1 succeeds. -/
theorem pinTab_limit_spec_witness :
    (handlePinTab sixPinnedWorld 7 true =
      (PinResponse.limitError "Maximum 6 pinned tabs allowed", sixPinnedWorld) ∧
     countPinned (handlePinTab sixPinnedWorld 7 true).2 = 6) ∧
    (handlePinTab sixPinnedWorld 1 false).1 = PinResponse.ok :=
  ⟨(pinTab_limit_spec sixPinnedWorld 7).1 (by decide),
   ((pinTab_limit_spec sixPinnedWorld 1).2.2 ⟨⟨1, true⟩, by decide, rfl⟩).1⟩

/-! ### C10: per-window tab read -/

/-- C10: `getTabsForWindow` returns `[]` for an unknown window id; for a
known window it returns exactly the resolvable tabs of that window's id
list (dangling ids skipped), ordered by ascending tab index. The function
is a pure read: it takes the store and returns a list, mutating nothing. -/
theorem getTabsForWindow_spec (st : TabState) (windowId : Nat) :
    (mapGet st.windows windowId = none → getTabsForWindow st windowId = []) ∧
    (∀ w, mapGet st.windows windowId = some w →
      (getTabsForWindow st windowId).Perm
        ((w.tabIds.map (fun id => mapGet st.tabs id)).reduceOption) ∧
      (getTabsForWindow st windowId).Pairwise (fun a b => a.index ≤ b.index)) := by
  constructor
  · intro h
    unfold getTabsForWindow
    rw [h]
  · intro w hw
    have hdef : getTabsForWindow st windowId =
        ((w.tabIds.map (fun id => mapGet st.tabs id)).reduceOption).mergeSort
          (fun a b => a.index ≤ b.index) := by
      unfold getTabsForWindow
      rw [hw]
    constructor
    · rw [hdef]
      exact List.mergeSort_perm _ _
    · rw [hdef]
      have hs := @List.sorted_mergeSort ExtendedTab
        (fun a b => decide (a.index ≤ b.index))
        (by intro a b c hab hbc; simp at hab hbc ⊢; omega)
        (by intro a b; simp; omega)
        ((w.tabIds.map (fun id => mapGet st.tabs id)).reduceOption)
      exact hs.imp (fun h => by simpa using h)

/-- The window record stored under id 5 in `sampleTabState`. -/
def sampleWindow : ExtendedWindow := { id := 5, focused := true, tabIds := [2, 1, 99] }

/-- Witness for C10: the unknown window 7 yields `[]`; window 5's result is
sorted by index. -/
theorem getTabsForWindow_spec_witness :
    getTabsForWindow sampleTabState 7 = [] ∧
    (getTabsForWindow sampleTabState 5).Pairwise (fun a b => a.index ≤ b.index) :=
  ⟨(getTabsForWindow_spec sampleTabState 7).1 rfl,
   ((getTabsForWindow_spec sampleTabState 5).2 sampleWindow rfl).2⟩

/-! ### C3: serialized-view cache freshness -/

/-- Every accepted mutation stamps the store clock with its `Date.now()`. -/
theorem acceptedMutation_stamps (st : TabState) (m : EngineMutation) (now : Nat)
    (hm : acceptedMutation m = true) :
    (applyEngineMutation st m now).lastUpdated = now := by
  cases m with
  | createdM tab => simp [applyEngineMutation, onCreated]
  | removedM tabId windowId => simp [applyEngineMutation, onRemovedState]
  | activatedM tabId windowId => simp [applyEngineMutation, onActivated]
  | movedM a b c d => simp [applyEngineMutation, onMoved]
  | updatedFlushM tabId ci tab =>
    have : hasMeaningfulChange ci = true := by simpa [acceptedMutation] using hm
    simp [applyEngineMutation, handleTabUpdated, this]

/-- C3: two `getSerializedState()` calls with no intervening mutation return
the identical cached result and leave the cache untouched; after an
accepted mutation stamped with a clock value different from the cached one,
`getSerializedState()` returns the rebuilt projection of the new store. -/
theorem serialized_cache_spec (e : EngineCache) :
    ((getSerializedState ((getSerializedState e).2)).1 = (getSerializedState e).1 ∧
     (getSerializedState ((getSerializedState e).2)).2 = (getSerializedState e).2) ∧
    (∀ m now, acceptedMutation m = true → now ≠ e.cacheLastUpdated →
      (getSerializedState { e with state := applyEngineMutation e.state m now }).1 =
        serializeState (applyEngineMutation e.state m now)) := by
  constructor
  · cases hc : e.serializedStateCache with
    | none => simp [getSerializedState, hc]
    | some cached =>
      by_cases h : e.cacheLastUpdated = e.state.lastUpdated
      · simp [getSerializedState, hc, h]
      · simp [getSerializedState, hc, h]
  · intro m now hm hne
    have hst : (applyEngineMutation e.state m now).lastUpdated = now :=
      acceptedMutation_stamps e.state m now hm
    cases hc : e.serializedStateCache with
    | none => simp [getSerializedState, hc]
    | some cached =>
      have hnn : ¬ e.cacheLastUpdated = (applyEngineMutation e.state m now).lastUpdated := by
        rw [hst]; exact fun hh => hne hh.symm
      simp [getSerializedState, hc, hnn]

/-- A concrete engine with an empty cache. -/
def sampleEngineCache : EngineCache :=
  { state := sampleTabState, serializedStateCache := none, cacheLastUpdated := 0 }

/-- Witness for C3: consecutive reads coincide on the sample engine, and a
read after an activation stamped at 9 returns the rebuilt projection. -/
theorem serialized_cache_spec_witness :
    (getSerializedState ((getSerializedState sampleEngineCache).2)).1 =
      (getSerializedState sampleEngineCache).1 ∧
    (getSerializedState
        { sampleEngineCache with
          state := applyEngineMutation sampleEngineCache.state (EngineMutation.activatedM 2 5) 9 }).1 =
      serializeState (applyEngineMutation sampleEngineCache.state (EngineMutation.activatedM 2 5) 9) :=
  ⟨((serialized_cache_spec sampleEngineCache).1).1,
   (serialized_cache_spec sampleEngineCache).2 (EngineMutation.activatedM 2 5) 9 (by decide) (by decide)⟩

/-! ### C2: debounced update coalescing -/

/-- The tab record a flush stores and broadcasts: the notification's full
tab with the previously stored `lastActiveAt` and `spaceId` carried over. -/
def flushedTab (st : TabState) (tabId : Nat) (tab : ChromeTab) : ExtendedTab :=
  { toChromeTab := tab
    lastActiveAt := (mapGet st.tabs tabId).bind (fun t => t.lastActiveAt)
    spaceId := (mapGet st.tabs tabId).bind (fun t => t.spaceId) }

/-- A burst only reschedules timers: the store is untouched. -/
theorem applyBurst_state (es : EngineState) (tabId : Nat)
    (notifs : List (ChangeInfo × ChromeTab)) :
    (applyBurst es tabId notifs).state = es.state := by
  induction notifs generalizing es with
  | nil => rfl
  | cons n rest ih =>
    show (applyBurst (onUpdatedEvent es tabId n.1 n.2) tabId rest).state = es.state
    rw [ih]
    rfl

/-- After a burst ending in `lastN`, the pending timer for the tab carries
exactly `lastN`'s arguments. -/
theorem applyBurst_append_last (es : EngineState) (tabId : Nat)
    (notifs : List (ChangeInfo × ChromeTab)) (lastN : ChangeInfo × ChromeTab) :
    mapGet (applyBurst es tabId (notifs ++ [lastN])).pending tabId = some lastN := by
  unfold applyBurst
  rw [List.foldl_append]
  exact mapGet_mapSet_self _ _ _

/-- C2 (amended): a burst of update notifications for one tab inside the
quiet window applies no mutation by itself; when its timer fires, at most
one mutation is applied and at most one `TAB_UPDATED` delta broadcast —
exactly one of each when the last notification's patch touches an
allow-listed field, carrying the last notification's tab fields — and none
when the last patch touches no allow-listed field. -/
theorem debounce_burst_spec (es : EngineState) (tabId now : Nat)
    (notifs : List (ChangeInfo × ChromeTab)) (lastN : ChangeInfo × ChromeTab) :
    (applyBurst es tabId (notifs ++ [lastN])).state = es.state ∧
    (hasMeaningfulChange lastN.1 = true →
      (fireTimer (applyBurst es tabId (notifs ++ [lastN])) tabId now).1.state.tabs =
        mapSet es.state.tabs tabId (flushedTab es.state tabId lastN.2) ∧
      (fireTimer (applyBurst es tabId (notifs ++ [lastN])) tabId now).1.state.lastUpdated = now ∧
      (fireTimer (applyBurst es tabId (notifs ++ [lastN])) tabId now).2 =
        [BroadcastMsg.tabUpdated (flushedTab es.state tabId lastN.2)]) ∧
    (hasMeaningfulChange lastN.1 = false →
      (fireTimer (applyBurst es tabId (notifs ++ [lastN])) tabId now).1.state = es.state ∧
      (fireTimer (applyBurst es tabId (notifs ++ [lastN])) tabId now).2 = []) := by
  have hpend := applyBurst_append_last es tabId notifs lastN
  have hstate := applyBurst_state es tabId (notifs ++ [lastN])
  refine ⟨hstate, ?_, ?_⟩
  · intro hm
    simp only [fireTimer, hpend, hstate]
    simp [handleTabUpdated, hm, flushedTab]
  · intro hm
    simp only [fireTimer, hpend, hstate]
    simp [handleTabUpdated, hm]

/-- An engine over the sample store with no timer pending. -/
def sampleEngineState : EngineState := { state := sampleTabState, pending := [] }

/-- Nine status updates for tab 1 (the head of a ten-notification burst). -/
def nineStatusNotifs : List (ChangeInfo × ChromeTab) :=
  List.replicate 9 (statusChange, sampleChromeTab 1)

/-- Witness for C2 (amended): a burst of ten status notifications for tab 1
leaves the store untouched until the timer fires, and the flush stores and
broadcasts exactly the last notification's tab. -/
theorem debounce_burst_spec_witness :
    (applyBurst sampleEngineState 1 (nineStatusNotifs ++ [(statusChange, sampleChromeTab 1)])).state =
      sampleEngineState.state ∧
    (fireTimer (applyBurst sampleEngineState 1 (nineStatusNotifs ++ [(statusChange, sampleChromeTab 1)])) 1 7).2 =
      [BroadcastMsg.tabUpdated (flushedTab sampleEngineState.state 1 (sampleChromeTab 1))] :=
  ⟨(debounce_burst_spec sampleEngineState 1 7 nineStatusNotifs (statusChange, sampleChromeTab 1)).1,
   ((debounce_burst_spec sampleEngineState 1 7 nineStatusNotifs (statusChange, sampleChromeTab 1)).2.1 (by decide)).2.2⟩

/-- Ten update notifications for tab 1 whose patches touch no allow-listed
field. -/
def tenIgnorableNotifs : List (ChangeInfo × ChromeTab) :=
  List.replicate 10 (ignorableChange, sampleChromeTab 1)

/-- Counterexample to C2 as stated: ten rapid update notifications within
the quiet window yield ZERO applied mutations — not exactly one — when the
patches touch no allow-listed field: after the flush the store is identical
to the initial store and nothing is broadcast. -/
theorem debounce_burst_counterexample :
    (fireTimer (applyBurst sampleEngineState 1 tenIgnorableNotifs) 1 7).1.state =
      sampleEngineState.state ∧
    (fireTimer (applyBurst sampleEngineState 1 tenIgnorableNotifs) 1 7).2 = [] := by
  constructor <;> rfl

/-! ### C7: removal cancels timers; revival -/

/-- Any event that is not an update for tab `i` preserves both "no record
for `i`" and "no pending timer for `i`". -/
theorem stepEvent_preserves_absent (es : EngineState) (e : TabEvent) (i : Nat)
    (he : isUpdatedFor i e = false)
    (h1 : mapGet es.state.tabs i = none) (h2 : mapGet es.pending i = none) :
    mapGet (stepEvent es e).state.tabs i = none ∧
    mapGet (stepEvent es e).pending i = none := by
  cases e with
  | updated j ci tab =>
    have hj : ¬ (j = i) := by simpa [isUpdatedFor] using he
    constructor
    · simpa [stepEvent, onUpdatedEvent] using h1
    · simp only [stepEvent, onUpdatedEvent]
      rw [mapGet_mapSet_ne _ _ _ _ (fun hh => hj hh.symm)]
      exact h2
  | removed j w t =>
    constructor
    · simp only [stepEvent, onRemovedEvent, onRemovedState]
      by_cases hj : j = i
      · subst hj; exact mapGet_mapDelete_self _ _
      · rw [mapGet_mapDelete_ne _ _ _ (fun hh => hj hh.symm)]; exact h1
    · simp only [stepEvent, onRemovedEvent]
      by_cases hj : j = i
      · subst hj; exact mapGet_mapDelete_self _ _
      · rw [mapGet_mapDelete_ne _ _ _ (fun hh => hj hh.symm)]; exact h2
  | fire j t =>
    cases hp : mapGet es.pending j with
    | none =>
      constructor
      · simpa [stepEvent, fireTimer, hp] using h1
      · simpa [stepEvent, fireTimer, hp] using h2
    | some citab =>
      have hj : ¬ j = i := by
        intro hh; subst hh; rw [h2] at hp; exact Option.noConfusion hp
      constructor
      · simp only [stepEvent, fireTimer, hp]
        by_cases hm : hasMeaningfulChange citab.1 = true
        · simp only [handleTabUpdated, if_pos hm]
          rw [mapGet_mapSet_ne _ _ _ _ (fun hh => hj hh.symm)]
          exact h1
        · rw [Bool.not_eq_true] at hm
          simp only [handleTabUpdated, hm]
          simpa using h1
      · simp only [stepEvent, fireTimer, hp]
        rw [mapGet_mapDelete_ne _ _ _ (fun hh => hj hh.symm)]
        exact h2

/-- Absence of tab `i` persists across any event sequence with no update
notification for `i`. -/
theorem no_update_preserves_absent (i : Nat) (evs : List TabEvent) (es : EngineState)
    (hevs : ∀ e ∈ evs, isUpdatedFor i e = false)
    (h1 : mapGet es.state.tabs i = none) (h2 : mapGet es.pending i = none) :
    mapGet (runEvents es evs).state.tabs i = none ∧
    mapGet (runEvents es evs).pending i = none := by
  induction evs generalizing es with
  | nil => exact ⟨h1, h2⟩
  | cons e rest ih =>
    have he := hevs e (List.mem_cons_self e rest)
    have hrest : ∀ x ∈ rest, isUpdatedFor i x = false :=
      fun x hx => hevs x (List.mem_cons_of_mem e hx)
    have hstep := stepEvent_preserves_absent es e i he h1 h2
    exact ih (stepEvent es e) hrest hstep.1 hstep.2

/-- C7 (amended): a removal notification cancels any outstanding debounce
timer for the id, so in every interleaving of updated/removed notifications
and timer firings that contains no update notification for the id after its
removal, the id is absent from the store afterward. (An update notification
arriving after the removal schedules a fresh timer whose callback
re-inserts the tab: see the counterexample.) -/
theorem removal_cancels_and_no_revival (es : EngineState) (i w t : Nat)
    (evs : List TabEvent) (hevs : ∀ e ∈ evs, isUpdatedFor i e = false) :
    mapGet (onRemovedEvent es i w t).1.pending i = none ∧
    mapGet (runEvents (onRemovedEvent es i w t).1 evs).state.tabs i = none := by
  have hp : mapGet (onRemovedEvent es i w t).1.pending i = none := by
    simp only [onRemovedEvent]
    exact mapGet_mapDelete_self _ _
  have ht : mapGet (onRemovedEvent es i w t).1.state.tabs i = none := by
    simp only [onRemovedEvent, onRemovedState]
    exact mapGet_mapDelete_self _ _
  exact ⟨hp, (no_update_preserves_absent i evs _ hevs ht hp).1⟩

/-- Witness for C7 at a concrete interleaving: remove tab 1 while an update
for tab 2 is pending and let tab 2's timer fire — tab 1 stays absent. -/
theorem removal_cancels_and_no_revival_witness :
    mapGet (onRemovedEvent sampleEngineState 1 5 2).1.pending 1 = none ∧
    mapGet (runEvents (onRemovedEvent sampleEngineState 1 5 2).1
      [TabEvent.updated 2 statusChange (sampleChromeTab 2),
       TabEvent.fire 2 3]).state.tabs 1 = none :=
  removal_cancels_and_no_revival sampleEngineState 1 5 2
    [TabEvent.updated 2 statusChange (sampleChromeTab 2), TabEvent.fire 2 3]
    (by decide)

/-- Counterexample to C7 as stated: in the interleaving
`removed 1; updated 1; fire 1` the debounced callback re-inserts tab 1
after its removal — the removed id is present in the store afterward. -/
theorem removal_revival_counterexample :
    (mapGet (runEvents sampleEngineState
      [TabEvent.removed 1 5 2,
       TabEvent.updated 1 statusChange (sampleChromeTab 1),
       TabEvent.fire 1 3]).state.tabs 1).isSome = true := by
  rfl

/-! ### C6: mutations referencing unknown tab ids -/

/-- Deleting an absent key leaves a map unchanged. -/
theorem mapDelete_eq_self {α : Type} (m : List (Nat × α)) (k : Nat)
    (h : mapGet m k = none) : mapDelete m k = m := by
  apply List.filter_eq_self.mpr
  intro p hp
  simp only [mapGet, Option.map_eq_none'] at h
  rw [List.find?_eq_none] at h
  simpa using h p hp

theorem mem_spliceInsert {α : Type} (l : List α) (i : Nat) (a : α) :
    a ∈ spliceInsert l i a := by
  unfold spliceInsert
  exact List.mem_append_right _ (List.mem_cons_self a _)

/-- C6 (amended): a mutation notification for a tab id absent from the
store skips only the per-tab record update and is never surfaced as a
failure, but it is not a silent no-op: activate still records the unknown
id as `activeTabId`, stamps the clock and broadcasts; move still reorders
the target window (splicing the unknown id into its order), stamps the
clock and broadcasts; remove still stamps the clock and broadcasts; a
flushed update inserts a fresh record for the id and broadcasts. -/
theorem unknown_id_mutation_spec (st : TabState) (i w fromIdx toIdx now : Nat)
    (hi : mapGet st.tabs i = none) :
    ((onActivated st i w now).1.tabs = st.tabs ∧
     (onActivated st i w now).1.activeTabId = some i ∧
     (onActivated st i w now).1.lastUpdated = now ∧
     (onActivated st i w now).2 = [BroadcastMsg.tabActivated i w]) ∧
    ((onMoved st i fromIdx toIdx w now).1.tabs = st.tabs ∧
     (onMoved st i fromIdx toIdx w now).1.lastUpdated = now ∧
     (onMoved st i fromIdx toIdx w now).2 = [BroadcastMsg.tabMoved i fromIdx toIdx w] ∧
     (∀ ww, mapGet st.windows w = some ww →
        mapGet (onMoved st i fromIdx toIdx w now).1.windows w =
          some { ww with tabIds := spliceInsert (ww.tabIds.filter (fun id => id ≠ i)) toIdx i } ∧
        i ∈ spliceInsert (ww.tabIds.filter (fun id => id ≠ i)) toIdx i)) ∧
    (∀ pending,
      (onRemovedEvent { state := st, pending := pending } i w now).1.state.tabs = st.tabs ∧
      (onRemovedEvent { state := st, pending := pending } i w now).1.state.lastUpdated = now ∧
      (onRemovedEvent { state := st, pending := pending } i w now).2 =
        [BroadcastMsg.tabRemoved i w]) ∧
    (∀ ci tab, hasMeaningfulChange ci = true →
      mapGet (handleTabUpdated st i ci tab now).1.tabs i =
        some { toChromeTab := tab, lastActiveAt := none, spaceId := none } ∧
      (handleTabUpdated st i ci tab now).1.lastUpdated = now ∧
      (handleTabUpdated st i ci tab now).2 =
        [BroadcastMsg.tabUpdated { toChromeTab := tab, lastActiveAt := none, spaceId := none }]) := by
  refine ⟨?_, ?_, ?_, ?_⟩
  · simp [onActivated, hi]
  · refine ⟨?_, ?_, ?_, ?_⟩
    · simp [onMoved, hi]
    · simp [onMoved]
    · simp [onMoved]
    · intro ww hw
      constructor
      · simp only [onMoved, hw]
        exact mapGet_mapSet_self _ _ _
      · exact mem_spliceInsert _ _ _
  · intro pending
    refine ⟨?_, ?_, ?_⟩
    · simp only [onRemovedEvent, onRemovedState]
      exact mapDelete_eq_self _ _ hi
    · simp [onRemovedEvent, onRemovedState]
    · simp [onRemovedEvent]
  · intro ci tab hm
    refine ⟨?_, ?_, ?_⟩
    · simp only [handleTabUpdated, if_pos hm, hi]
      simpa using mapGet_mapSet_self st.tabs i _
    · simp [handleTabUpdated, hm]
    · simp [handleTabUpdated, hm, hi]

/-- Witness for C6 (amended) at the sample store and the unknown id 42. -/
theorem unknown_id_mutation_spec_witness :
    (onActivated sampleTabState 42 5 9).1.activeTabId = some 42 ∧
    (onActivated sampleTabState 42 5 9).2 = [BroadcastMsg.tabActivated 42 5] ∧
    (onActivated sampleTabState 42 5 9).1.tabs = sampleTabState.tabs :=
  ⟨((unknown_id_mutation_spec sampleTabState 42 5 0 0 9 (by rfl)).1).2.1,
   ((unknown_id_mutation_spec sampleTabState 42 5 0 0 9 (by rfl)).1).2.2.2,
   ((unknown_id_mutation_spec sampleTabState 42 5 0 0 9 (by rfl)).1).1⟩

/-- Counterexample to C6 as stated: an activate notification for the
unknown id 42 changes the active tab id and the clock and broadcasts a
delta — it is not a silent no-op leaving the store unchanged. -/
theorem unknown_id_mutation_counterexample :
    mapGet sampleTabState.tabs 42 = none ∧
    (onActivated sampleTabState 42 5 9).1.activeTabId ≠ sampleTabState.activeTabId ∧
    (onActivated sampleTabState 42 5 9).1.lastUpdated ≠ sampleTabState.lastUpdated ∧
    (onActivated sampleTabState 42 5 9).2 ≠ [] := by
  refine ⟨rfl, by decide, by decide, by decide⟩

/-! ### Lemmas about the space-list and metadata operations -/

theorem findSpace_eq_none_iff (spaces : List Space) (sid : String) :
    findSpace spaces sid = none ↔ ∀ s ∈ spaces, s.id ≠ sid := by
  unfold findSpace
  rw [List.find?_eq_none]
  simp

theorem findSpace_mem (spaces : List Space) (sid : String) (s : Space)
    (h : findSpace spaces sid = some s) : s ∈ spaces ∧ s.id = sid := by
  unfold findSpace at h
  exact ⟨List.mem_of_find?_eq_some h, by simpa using List.find?_some h⟩

theorem findSpace_isSome_of_mem (spaces : List Space) (sid : String)
    (h : sid ∈ spaces.map Space.id) : (findSpace spaces sid).isSome = true := by
  rw [List.mem_map] at h
  obtain ⟨s, hs, rfl⟩ := h
  unfold findSpace
  rw [List.find?_isSome]
  exact ⟨s, hs, by simp⟩

theorem updateFirstSpace_of_none (spaces : List Space) (sid : String) (f : Space → Space)
    (h : findSpace spaces sid = none) : updateFirstSpace spaces sid f = spaces := by
  induction spaces with
  | nil => rfl
  | cons s rest ih =>
    rw [findSpace_eq_none_iff] at h
    have hs : ¬ s.id = sid := h s (List.mem_cons_self s rest)
    rw [updateFirstSpace, if_neg hs, ih]
    rw [findSpace_eq_none_iff]
    exact fun u hu => h u (List.mem_cons_of_mem s hu)

theorem updateFirstSpace_ids (spaces : List Space) (sid : String) (f : Space → Space)
    (hf : ∀ s, (f s).id = s.id) :
    (updateFirstSpace spaces sid f).map Space.id = spaces.map Space.id := by
  induction spaces with
  | nil => rfl
  | cons s rest ih =>
    by_cases hs : s.id = sid
    · rw [updateFirstSpace, if_pos hs]
      simp [hf]
    · rw [updateFirstSpace, if_neg hs]
      simp [ih]

theorem mem_updateFirstSpace (spaces : List Space) (sid : String) (f : Space → Space)
    (s' : Space) (h : s' ∈ updateFirstSpace spaces sid f) :
    s' ∈ spaces ∨ ∃ s ∈ spaces, s.id = sid ∧ s' = f s := by
  induction spaces with
  | nil => exact absurd h (List.not_mem_nil s')
  | cons s rest ih =>
    by_cases hs : s.id = sid
    · rw [updateFirstSpace, if_pos hs] at h
      rcases List.mem_cons.mp h with h | h
      · exact Or.inr ⟨s, List.mem_cons_self s rest, hs, h⟩
      · exact Or.inl (List.mem_cons_of_mem s h)
    · rw [updateFirstSpace, if_neg hs] at h
      rcases List.mem_cons.mp h with h | h
      · exact Or.inl (h ▸ List.mem_cons_self s rest)
      · rcases ih h with h | ⟨u, hu, hid, he⟩
        · exact Or.inl (List.mem_cons_of_mem s h)
        · exact Or.inr ⟨u, List.mem_cons_of_mem s hu, hid, he⟩

theorem mem_updateFirstSpace_of_ne (spaces : List Space) (sid : String) (f : Space → Space)
    (s' : Space) (hmem : s' ∈ spaces) (hne : s'.id ≠ sid) :
    s' ∈ updateFirstSpace spaces sid f := by
  induction spaces with
  | nil => exact absurd hmem (List.not_mem_nil s')
  | cons s rest ih =>
    by_cases hs : s.id = sid
    · rw [updateFirstSpace, if_pos hs]
      rcases List.mem_cons.mp hmem with h | h
      · exact absurd (h ▸ hs) hne
      · exact List.mem_cons_of_mem _ h
    · rw [updateFirstSpace, if_neg hs]
      rcases List.mem_cons.mp hmem with h | h
      · rw [h]; exact List.mem_cons_self _ _
      · exact List.mem_cons_of_mem _ (ih h)

theorem findSpace_updateFirstSpace_self (spaces : List Space) (sid : String)
    (f : Space → Space) (hf : ∀ s, (f s).id = s.id) :
    findSpace (updateFirstSpace spaces sid f) sid = (findSpace spaces sid).map f := by
  induction spaces with
  | nil => rfl
  | cons s rest ih =>
    by_cases hs : s.id = sid
    · rw [updateFirstSpace, if_pos hs]
      unfold findSpace
      rw [List.find?_cons_of_pos _ (by simp [hf, hs]), List.find?_cons_of_pos _ (by simp [hs])]
      rfl
    · rw [updateFirstSpace, if_neg hs]
      unfold findSpace
      rw [List.find?_cons_of_neg _ (by simp [hs]), List.find?_cons_of_neg _ (by simp [hs])]
      exact ih

theorem findSpace_updateFirstSpace_ne (spaces : List Space) (sid sid2 : String)
    (f : Space → Space) (hf : ∀ s, (f s).id = s.id) (h : sid2 ≠ sid) :
    findSpace (updateFirstSpace spaces sid f) sid2 = findSpace spaces sid2 := by
  induction spaces with
  | nil => rfl
  | cons s rest ih =>
    by_cases hs : s.id = sid
    · have hs2 : ¬ s.id = sid2 := by rw [hs]; exact fun hh => h hh.symm
      rw [updateFirstSpace, if_pos hs]
      unfold findSpace
      rw [List.find?_cons_of_neg _ (by simp [hf, hs2]), List.find?_cons_of_neg _ (by simp [hs2])]
    · rw [updateFirstSpace, if_neg hs]
      by_cases hs2 : s.id = sid2
      · unfold findSpace
        rw [List.find?_cons_of_pos _ (by simp [hs2]), List.find?_cons_of_pos _ (by simp [hs2])]
      · unfold findSpace
        rw [List.find?_cons_of_neg _ (by simp [hs2]), List.find?_cons_of_neg _ (by simp [hs2])]
        exact ih

/-- With distinct space ids, a member space found by id is the unique space
carrying that id. -/
theorem findSpace_eq_of_nodup (spaces : List Space) (s : Space)
    (hnd : (spaces.map Space.id).Nodup) (hmem : s ∈ spaces) :
    findSpace spaces s.id = some s := by
  induction spaces with
  | nil => exact absurd hmem (List.not_mem_nil s)
  | cons u rest ih =>
    simp only [List.map_cons, List.nodup_cons] at hnd
    rcases List.mem_cons.mp hmem with h | h
    · subst h
      unfold findSpace
      rw [List.find?_cons_of_pos _ (by simp)]
    · have hne : ¬ u.id = s.id := by
        intro hh
        exact hnd.1 (hh ▸ List.mem_map.mpr ⟨s, h, rfl⟩)
      unfold findSpace
      rw [List.find?_cons_of_neg _ (by simp [hne])]
      exact ih hnd.2 h

/-- With strictly ascending keys, a stored pair is what lookup returns. -/
theorem mapGet_of_mem_pairwise {α : Type} (m : List (Nat × α)) (k : Nat) (v : α)
    (hnd : (m.map Prod.fst).Pairwise (· < ·)) (hmem : (k, v) ∈ m) :
    mapGet m k = some v := by
  induction m with
  | nil => exact absurd hmem (List.not_mem_nil _)
  | cons p rest ih =>
    simp only [List.map_cons, List.pairwise_cons] at hnd
    rcases List.mem_cons.mp hmem with h | h
    · subst h
      rw [mapGet_cons, if_pos rfl]
    · have hlt : p.1 < k := hnd.1 k (List.mem_map.mpr ⟨(k, v), h, rfl⟩)
      rw [mapGet_cons, if_neg (by omega)]
      exact ih hnd.2 h

theorem storedSpaceId_objSet_self (meta : List (Nat × TabMeta)) (k : Nat) (v : TabMeta) :
    storedSpaceId (objSet meta k v) k = jsOrDefault v.spaceId := by
  unfold storedSpaceId
  rw [objGet_objSet_self]
  rfl

theorem storedSpaceId_objSet_ne (meta : List (Nat × TabMeta)) (k t : Nat) (v : TabMeta)
    (h : t ≠ k) : storedSpaceId (objSet meta k v) t = storedSpaceId meta t := by
  unfold storedSpaceId
  rw [objGet_objSet_ne _ _ _ _ h]

theorem storedSpaceId_mapDelete_ne (meta : List (Nat × TabMeta)) (k t : Nat)
    (h : t ≠ k) : storedSpaceId (mapDelete meta k) t = storedSpaceId meta t := by
  unfold storedSpaceId
  rw [mapGet_mapDelete_ne _ _ _ h]

theorem lastSpaceIdx_eq_none_iff (spaces : List Space) (sid : String) :
    lastSpaceIdx spaces sid = none ↔ ∀ s ∈ spaces, s.id ≠ sid := by
  unfold lastSpaceIdx
  rw [Option.map_eq_none', List.getLast?_eq_none_iff, List.filter_eq_nil_iff]
  constructor
  · intro h s hs hid
    have hsnd : s ∈ spaces.enum.map Prod.snd := by rw [List.enum_map_snd]; exact hs
    obtain ⟨p, hp, hps⟩ := List.mem_map.mp hsnd
    exact h p hp (by simp [hps, hid])
  · intro h p hp
    have hsnd : p.2 ∈ spaces.enum.map Prod.snd := List.mem_map.mpr ⟨p, hp, rfl⟩
    rw [List.enum_map_snd] at hsnd
    simpa using h p.2 hsnd

theorem lastSpaceIdx_some (spaces : List Space) (sid : String) (i : Nat)
    (h : lastSpaceIdx spaces sid = some i) :
    ∃ s, spaces[i]? = some s ∧ s.id = sid := by
  unfold lastSpaceIdx at h
  rw [Option.map_eq_some'] at h
  obtain ⟨p, hp, rfl⟩ := h
  have hmem := List.mem_of_mem_getLast? hp
  have hfil := List.of_mem_filter hmem
  have henum := List.mem_filter.mp hmem
  have hm := List.mem_enum henum.1
  refine ⟨p.2, ?_, by simpa using hfil⟩
  rw [List.getElem?_eq_some_iff]
  exact ⟨hm.1, hm.2.symm⟩

theorem modifyIdx_map_eq {α β : Type} (l : List α) (i : Nat) (f : α → α) (g : α → β)
    (hf : ∀ a, g (f a) = g a) : (modifyIdx l i f).map g = l.map g := by
  induction l generalizing i with
  | nil => rfl
  | cons a rest ih =>
    cases i with
    | zero => simp [modifyIdx, hf]
    | succ n => simp [modifyIdx, ih]

theorem mem_modifyIdx {α : Type} (l : List α) (i : Nat) (f : α → α) (a' : α)
    (h : a' ∈ modifyIdx l i f) :
    a' ∈ l ∨ ∃ a, l[i]? = some a ∧ a' = f a := by
  induction l generalizing i with
  | nil => exact absurd h (List.not_mem_nil a')
  | cons a rest ih =>
    cases i with
    | zero =>
      rcases List.mem_cons.mp h with h | h
      · exact Or.inr ⟨a, by simp, h⟩
      · exact Or.inl (List.mem_cons_of_mem a h)
    | succ n =>
      rcases List.mem_cons.mp h with h | h
      · exact Or.inl (h ▸ List.mem_cons_self a rest)
      · rcases ih n h with h | ⟨b, hb, he⟩
        · exact Or.inl (List.mem_cons_of_mem a h)
        · exact Or.inr ⟨b, by simpa using hb, he⟩

theorem modifyIdx_mem_self {α : Type} (l : List α) (i : Nat) (f : α → α) (a : α)
    (h : l[i]? = some a) : f a ∈ modifyIdx l i f := by
  induction l generalizing i with
  | nil => simp at h
  | cons b rest ih =>
    cases i with
    | zero =>
      simp only [List.getElem?_cons_zero, Option.some_inj] at h
      subst h
      exact List.mem_cons_self _ _
    | succ n =>
      simp only [List.getElem?_cons_succ] at h
      exact List.mem_cons_of_mem b (ih n h)

theorem string_append_ne_empty (x : String) : "space_" ++ x ≠ "" := by
  intro h
  have := congrArg String.length h
  rw [String.length_append] at this
  have h6 : ("space_" : String).length = 6 := rfl
  rw [h6] at this
  simp at this

/-! ### C8: tab-to-workspace assignment -/

theorem pushTabIfAbsent_id (t : Nat) (s : Space) : (pushTabIfAbsent t s).id = s.id := by
  unfold pushTabIfAbsent
  by_cases h : t ∈ s.tabIds <;> simp [h]

theorem mem_pushTabIfAbsent (t : Nat) (s : Space) : t ∈ (pushTabIfAbsent t s).tabIds := by
  unfold pushTabIfAbsent
  by_cases h : t ∈ s.tabIds
  · simp [h]
  · simp [h]

/-- C8 (amended): when the requested id equals the tab's effective stored
workspace id, `assignTabToSpace` returns it immediately with no state
change; otherwise it removes the tab from the workspace named by its stored
id, inserts it into the target workspace — falling back to the default
workspace whenever the requested id names no existing workspace (the
reserved `all` pseudo-id included) — rewrites the tab's stored workspaceId
to the workspace actually used, and returns that effective id. -/
theorem assignTabToSpace_spec (st : SMState) (tabId : Nat) (spaceId : String)
    (hnd : (st.spaces.map Space.id).Nodup)
    (hdef : "default" ∈ st.spaces.map Space.id)
    (hne : ∀ s ∈ st.spaces, s.id ≠ "")
    (hmatch : listedSpaceMatches st) :
    (storedSpaceId st.tabMetadata tabId = spaceId →
      assignTabToSpace st tabId spaceId = (spaceId, st)) ∧
    (storedSpaceId st.tabMetadata tabId ≠ spaceId →
      (assignTabToSpace st tabId spaceId).1 =
        (if spaceId ∈ st.spaces.map Space.id then spaceId else "default") ∧
      storedSpaceId (assignTabToSpace st tabId spaceId).2.tabMetadata tabId =
        (assignTabToSpace st tabId spaceId).1 ∧
      (∃ s ∈ (assignTabToSpace st tabId spaceId).2.spaces,
        s.id = (assignTabToSpace st tabId spaceId).1 ∧ tabId ∈ s.tabIds) ∧
      (∀ s ∈ (assignTabToSpace st tabId spaceId).2.spaces,
        s.id ≠ (assignTabToSpace st tabId spaceId).1 → tabId ∉ s.tabIds) ∧
      (assignTabToSpace st tabId spaceId).2.spaces.map Space.id =
        st.spaces.map Space.id) := by
  constructor
  · intro h
    rw [assignTabToSpace, if_pos h, h]
  · intro h
    set prev := storedSpaceId st.tabMetadata tabId with hprev
    set fRemove : Space → Space :=
      fun s => { s with tabIds := s.tabIds.filter (fun id => id ≠ tabId) } with hfR
    have hfR_id : ∀ s, (fRemove s).id = s.id := fun s => rfl
    set spaces1 := updateFirstSpace st.spaces prev fRemove with hsp1
    have hids1 : spaces1.map Space.id = st.spaces.map Space.id :=
      updateFirstSpace_ids _ _ _ hfR_id
    -- the space the tab ends up in
    have hnext : ∃ s, (match findSpace spaces1 spaceId with
        | some s => some s
        | none => findSpace spaces1 "default") = some s ∧ s ∈ spaces1 ∧
        s.id = (if spaceId ∈ st.spaces.map Space.id then spaceId else "default") := by
      cases hfind : findSpace spaces1 spaceId with
      | some s =>
        have hm := findSpace_mem _ _ _ hfind
        have : spaceId ∈ st.spaces.map Space.id := by
          rw [← hids1]
          exact List.mem_map.mpr ⟨s, hm.1, hm.2⟩
        exact ⟨s, rfl, hm.1, by rw [if_pos this]; exact hm.2⟩
      | none =>
        have hnone : spaceId ∉ st.spaces.map Space.id := by
          rw [← hids1]
          intro hmem
          rw [List.mem_map] at hmem
          obtain ⟨s, hs, hid⟩ := hmem
          exact (findSpace_eq_none_iff _ _ |>.mp hfind) s hs hid
        have hdsome : (findSpace spaces1 "default").isSome = true := by
          apply findSpace_isSome_of_mem
          rw [hids1]; exact hdef
        obtain ⟨d, hd⟩ := Option.isSome_iff_exists.mp hdsome
        have hm := findSpace_mem _ _ _ hd
        exact ⟨d, hd, hm.1, by rw [if_neg hnone]; exact hm.2⟩
    obtain ⟨s, hs_eq, hs_mem, hs_id⟩ := hnext
    have heval : assignTabToSpace st tabId spaceId =
        (s.id,
         { spaces := updateFirstSpace spaces1 s.id (pushTabIfAbsent tabId)
           tabMetadata := objSet st.tabMetadata tabId
             (mergeMeta ((mapGet st.tabMetadata tabId).getD emptyMeta)
               { spaceId := some s.id, lastActiveAt := none }) }) := by
      rw [assignTabToSpace, if_neg h]
      simp only [hs_eq, Option.map_some', Option.getD_some]
    have hsid_ne : s.id ≠ "" := by
      have : s.id ∈ st.spaces.map Space.id := by
        rw [← hids1]
        exact List.mem_map.mpr ⟨s, hs_mem, rfl⟩
      rw [List.mem_map] at this
      obtain ⟨u, hu, hid⟩ := this
      rw [← hid]
      exact hne u hu
    refine ⟨?_, ?_, ?_, ?_, ?_⟩
    · rw [heval, ← hs_id]
    · rw [heval]
      show storedSpaceId (objSet _ _ _) tabId = s.id
      rw [storedSpaceId_objSet_self]
      simp [mergeMeta, jsOrDefault, hsid_ne]
    · rw [heval]
      have hfs1 : findSpace spaces1 s.id = some s := by
        apply findSpace_eq_of_nodup
        · rw [hids1]; exact hnd
        · exact hs_mem
      have := findSpace_updateFirstSpace_self spaces1 s.id (pushTabIfAbsent tabId)
        (pushTabIfAbsent_id tabId)
      rw [hfs1] at this
      have hmem := findSpace_mem _ _ _ this
      exact ⟨pushTabIfAbsent tabId s, hmem.1, hmem.2, mem_pushTabIfAbsent tabId s⟩
    · rw [heval]
      intro s' hs' hsid' htmem
      rcases mem_updateFirstSpace _ _ _ _ hs' with h1 | ⟨u, hu, huid, hue⟩
      · -- s' comes from spaces1
        rcases mem_updateFirstSpace _ _ _ _ h1 with h2 | ⟨u, hu, huid, hue⟩
        · -- s' is an untouched original space holding the tab: then its id is prev,
          -- but the unique space with id prev was filtered, contradiction
          have hstored : prev = s'.id := hmatch s' h2 tabId htmem
          have hforig : findSpace st.spaces prev = some s' := by
            rw [hstored]; exact findSpace_eq_of_nodup _ _ hnd h2
          have hf1 : findSpace spaces1 prev = some (fRemove s') := by
            rw [hsp1, findSpace_updateFirstSpace_self _ _ _ hfR_id, hforig]
            rfl
          have hf1' : findSpace spaces1 prev = some s' := by
            rw [hstored]
            apply findSpace_eq_of_nodup
            · rw [hids1]; exact hnd
            · exact h1
          rw [hf1] at hf1'
          have : fRemove s' = s' := Option.some_inj.mp hf1'
          have hids : s'.tabIds = s'.tabIds.filter (fun id => id ≠ tabId) := by
            conv_lhs => rw [← this]
          rw [hids] at htmem
          simp at htmem
        · -- s' is the filtered previous space: the tab was removed from it
          rw [hue, hfR] at htmem
          simp at htmem
      · -- s' is the pushed target: its id is the effective id, contradiction
        have : s'.id = s.id := by rw [hue, pushTabIfAbsent_id, huid]
        exact hsid' this
    · rw [heval]
      show (updateFirstSpace spaces1 s.id (pushTabIfAbsent tabId)).map Space.id = _
      rw [updateFirstSpace_ids _ _ _ (pushTabIfAbsent_id tabId), hids1]

/-- The initial `StateManager` state: only the default space, no metadata
(equal to the result of `initialize()` over empty persisted storage). -/
def initialSMState : SMState := { spaces := [defaultSpaceAt 0], tabMetadata := [] }

/-- Counterexample to C8 as stated: on the initial state (reachable as
`initialize()` over empty storage), `assignTabToSpace 1 "default"` takes
the early-return path — it reports "default" but does NOT insert tab 1
into the default workspace's member set and does not write its metadata,
although the claim promises insertion for every tabId and workspaceId. -/
theorem assign_insert_counterexample :
    initialSMState = smInitialize [] [] 0 ∧
    (assignTabToSpace initialSMState 1 "default").1 = "default" ∧
    (assignTabToSpace initialSMState 1 "default").2 = initialSMState ∧
    ∀ s ∈ (assignTabToSpace initialSMState 1 "default").2.spaces, 1 ∉ s.tabIds := by
  refine ⟨by decide, by decide, by decide, by decide⟩

/-- A space named `work` holding tab 3. -/
def workSpace : Space :=
  { id := "work"
    name := "Work"
    color := "#ff0000"
    icon := none
    tabIds := [3]
    rules := []
    createdAt := 0
    lastAccessedAt := 0 }

/-- A state with the default space and `work` = {3}. -/
def stWithWork : SMState :=
  { spaces := [defaultSpaceAt 0, workSpace]
    tabMetadata := [(3, { spaceId := some "work", lastActiveAt := none })] }

/-- Witness for C8 (amended): assigning tab 3 to the reserved `all`
pseudo-id falls back to the default workspace and rewrites the stored id. -/
theorem assignTabToSpace_spec_witness :
    (assignTabToSpace stWithWork 3 "all").1 = "default" ∧
    storedSpaceId (assignTabToSpace stWithWork 3 "all").2.tabMetadata 3 = "default" := by
  have h := (assignTabToSpace_spec stWithWork 3 "all"
    (by decide) (by decide) (by decide)
    (by unfold listedSpaceMatches; decide)).2 (by decide)
  exact ⟨h.1.trans (by decide), h.2.1.trans (h.1.trans (by decide))⟩

/-! ### C5: workspace deletion — loop lemmas -/

theorem mem_push_if_absent (l : List Nat) (a t : Nat) :
    t ∈ (if a ∈ l then l else l ++ [a]) ↔ t ∈ l ∨ t = a := by
  by_cases h : a ∈ l
  · rw [if_pos h]
    constructor
    · exact Or.inl
    · rintro (ht | rfl)
      · exact ht
      · exact h
  · rw [if_neg h]
    simp

theorem mapGet_mem_keys {α : Type} (m : List (Nat × α)) (k : Nat) (v : α)
    (h : mapGet m k = some v) : k ∈ m.map Prod.fst := by
  simp only [mapGet, Option.map_eq_some'] at h
  obtain ⟨p, hp, rfl⟩ := h
  have hm := List.mem_of_find?_eq_some hp
  have he := List.find?_some hp
  simp only [decide_eq_true_eq] at he
  exact he ▸ List.mem_map.mpr ⟨p, hm, rfl⟩

theorem migrateMember_fold_default (L : List Nat) (acc : MigrateAcc) (t : Nat) :
    t ∈ (L.foldl migrateMemberStep acc).defaultTabIds ↔
      t ∈ acc.defaultTabIds ∨ t ∈ L := by
  induction L generalizing acc with
  | nil => simp
  | cons h rest ih =>
    rw [List.foldl_cons, ih]
    show t ∈ (if h ∈ acc.defaultTabIds then acc.defaultTabIds else acc.defaultTabIds ++ [h]) ∨ _ ↔ _
    rw [mem_push_if_absent]
    simp only [List.mem_cons]
    tauto

theorem migrateMember_fold_moved (L : List Nat) (acc : MigrateAcc) (t : Nat) :
    t ∈ (L.foldl migrateMemberStep acc).moved ↔ t ∈ acc.moved ∨ t ∈ L := by
  induction L generalizing acc with
  | nil => simp
  | cons h rest ih =>
    rw [List.foldl_cons, ih]
    show t ∈ (if h ∈ acc.moved then acc.moved else acc.moved ++ [h]) ∨ _ ↔ _
    rw [mem_push_if_absent]
    simp only [List.mem_cons]
    tauto

theorem migrateMember_fold_meta (L : List Nat) (acc : MigrateAcc) (t : Nat) :
    (mapGet (L.foldl migrateMemberStep acc).meta t).bind (fun m => m.spaceId) =
      if t ∈ L then some "default"
      else (mapGet acc.meta t).bind (fun m => m.spaceId) := by
  induction L generalizing acc with
  | nil => simp
  | cons h rest ih =>
    rw [List.foldl_cons, ih]
    by_cases ht : t ∈ rest
    · rw [if_pos ht, if_pos (List.mem_cons_of_mem h ht)]
    · rw [if_neg ht]
      by_cases hth : t = h
      · subst hth
        rw [if_pos (List.mem_cons_self t rest)]
        show (mapGet (objSet acc.meta t _) t).bind _ = _
        rw [objGet_objSet_self]
        rfl
      · rw [if_neg (by simp [List.mem_cons, hth, ht])]
        show (mapGet (objSet acc.meta h _) t).bind _ = _
        rw [objGet_objSet_ne _ _ _ _ hth]

theorem migrateMember_fold_keys (L : List Nat) (acc : MigrateAcc) (t : Nat) :
    t ∈ (L.foldl migrateMemberStep acc).meta.map Prod.fst ↔
      t ∈ acc.meta.map Prod.fst ∨ t ∈ L := by
  induction L generalizing acc with
  | nil => simp
  | cons h rest ih =>
    rw [List.foldl_cons, ih]
    show t ∈ (objSet acc.meta h _).map Prod.fst ∨ _ ↔ _
    rw [objSet_keys_mem]
    simp only [List.mem_cons]
    tauto

theorem migrateMember_fold_pairwise (L : List Nat) (acc : MigrateAcc)
    (h : (acc.meta.map Prod.fst).Pairwise (· < ·)) :
    (((L.foldl migrateMemberStep acc).meta).map Prod.fst).Pairwise (· < ·) := by
  induction L generalizing acc with
  | nil => exact h
  | cons a rest ih =>
    rw [List.foldl_cons]
    exact ih _ (objSet_keys_pairwise _ _ _ h)

theorem migrateMeta_fold_default (spaceId : String) (E : List (Nat × TabMeta))
    (acc : MigrateAcc) (t : Nat) (hnd : (E.map Prod.fst).Nodup) :
    t ∈ (E.foldl (migrateMetaStep spaceId) acc).defaultTabIds ↔
      t ∈ acc.defaultTabIds ∨
        (t ∈ E.map Prod.fst ∧
          (mapGet acc.meta t).bind (fun m => m.spaceId) = some spaceId) := by
  induction E generalizing acc with
  | nil => simp
  | cons e rest ih =>
    simp only [List.map_cons, List.nodup_cons] at hnd
    rw [List.foldl_cons]
    by_cases hc : (mapGet acc.meta e.1).bind (fun m => m.spaceId) = some spaceId
    · have hstep : migrateMetaStep spaceId acc e =
          { defaultTabIds :=
              if e.1 ∈ acc.defaultTabIds then acc.defaultTabIds else acc.defaultTabIds ++ [e.1]
            meta := objSet acc.meta e.1
              { ((mapGet acc.meta e.1).getD emptyMeta) with spaceId := some "default" }
            moved := if e.1 ∈ acc.moved then acc.moved else acc.moved ++ [e.1] } := by
        unfold migrateMetaStep
        rw [if_pos hc]
      rw [hstep, ih _ hnd.2]
      simp only [mem_push_if_absent]
      constructor
      · rintro (((ht | rfl) | ⟨hk, hm⟩))
        · exact Or.inl ht
        · exact Or.inr ⟨by simp, hc⟩
        · have htne : t ≠ e.1 := fun hh => hnd.1 (hh ▸ hk)
          rw [objGet_objSet_ne _ _ _ _ htne] at hm
          exact Or.inr ⟨by simp [hk], hm⟩
      · rintro (ht | ⟨hk, hm⟩)
        · exact Or.inl (Or.inl ht)
        · simp only [List.map_cons, List.mem_cons] at hk
          rcases hk with rfl | hk
          · exact Or.inl (Or.inr rfl)
          · have htne : t ≠ e.1 := fun hh => hnd.1 (hh ▸ hk)
            refine Or.inr ⟨hk, ?_⟩
            rw [objGet_objSet_ne _ _ _ _ htne]
            exact hm
    · have hstep : migrateMetaStep spaceId acc e = acc := by
        unfold migrateMetaStep
        rw [if_neg hc]
      rw [hstep, ih _ hnd.2]
      constructor
      · rintro (ht | ⟨hk, hm⟩)
        · exact Or.inl ht
        · exact Or.inr ⟨by simp [hk], hm⟩
      · rintro (ht | ⟨hk, hm⟩)
        · exact Or.inl ht
        · simp only [List.map_cons, List.mem_cons] at hk
          rcases hk with rfl | hk
          · exact absurd hm hc
          · exact Or.inr ⟨hk, hm⟩

theorem migrateMeta_fold_moved (spaceId : String) (E : List (Nat × TabMeta))
    (acc : MigrateAcc) (t : Nat) (hnd : (E.map Prod.fst).Nodup) :
    t ∈ (E.foldl (migrateMetaStep spaceId) acc).moved ↔
      t ∈ acc.moved ∨
        (t ∈ E.map Prod.fst ∧
          (mapGet acc.meta t).bind (fun m => m.spaceId) = some spaceId) := by
  induction E generalizing acc with
  | nil => simp
  | cons e rest ih =>
    simp only [List.map_cons, List.nodup_cons] at hnd
    rw [List.foldl_cons]
    by_cases hc : (mapGet acc.meta e.1).bind (fun m => m.spaceId) = some spaceId
    · have hstep : migrateMetaStep spaceId acc e =
          { defaultTabIds :=
              if e.1 ∈ acc.defaultTabIds then acc.defaultTabIds else acc.defaultTabIds ++ [e.1]
            meta := objSet acc.meta e.1
              { ((mapGet acc.meta e.1).getD emptyMeta) with spaceId := some "default" }
            moved := if e.1 ∈ acc.moved then acc.moved else acc.moved ++ [e.1] } := by
        unfold migrateMetaStep
        rw [if_pos hc]
      rw [hstep, ih _ hnd.2]
      simp only [mem_push_if_absent]
      constructor
      · rintro (((ht | rfl) | ⟨hk, hm⟩))
        · exact Or.inl ht
        · exact Or.inr ⟨by simp, hc⟩
        · have htne : t ≠ e.1 := fun hh => hnd.1 (hh ▸ hk)
          rw [objGet_objSet_ne _ _ _ _ htne] at hm
          exact Or.inr ⟨by simp [hk], hm⟩
      · rintro (ht | ⟨hk, hm⟩)
        · exact Or.inl (Or.inl ht)
        · simp only [List.map_cons, List.mem_cons] at hk
          rcases hk with rfl | hk
          · exact Or.inl (Or.inr rfl)
          · have htne : t ≠ e.1 := fun hh => hnd.1 (hh ▸ hk)
            refine Or.inr ⟨hk, ?_⟩
            rw [objGet_objSet_ne _ _ _ _ htne]
            exact hm
    · have hstep : migrateMetaStep spaceId acc e = acc := by
        unfold migrateMetaStep
        rw [if_neg hc]
      rw [hstep, ih _ hnd.2]
      constructor
      · rintro (ht | ⟨hk, hm⟩)
        · exact Or.inl ht
        · exact Or.inr ⟨by simp [hk], hm⟩
      · rintro (ht | ⟨hk, hm⟩)
        · exact Or.inl ht
        · simp only [List.map_cons, List.mem_cons] at hk
          rcases hk with rfl | hk
          · exact absurd hm hc
          · exact Or.inr ⟨hk, hm⟩

theorem migrateMeta_fold_meta (spaceId : String) (E : List (Nat × TabMeta))
    (acc : MigrateAcc) (t : Nat) (hnd : (E.map Prod.fst).Nodup) :
    (mapGet (E.foldl (migrateMetaStep spaceId) acc).meta t).bind (fun m => m.spaceId) =
      if t ∈ E.map Prod.fst ∧ (mapGet acc.meta t).bind (fun m => m.spaceId) = some spaceId
      then some "default"
      else (mapGet acc.meta t).bind (fun m => m.spaceId) := by
  induction E generalizing acc with
  | nil => simp
  | cons e rest ih =>
    simp only [List.map_cons, List.nodup_cons] at hnd
    rw [List.foldl_cons]
    by_cases hc : (mapGet acc.meta e.1).bind (fun m => m.spaceId) = some spaceId
    · have hstep : migrateMetaStep spaceId acc e =
          { defaultTabIds :=
              if e.1 ∈ acc.defaultTabIds then acc.defaultTabIds else acc.defaultTabIds ++ [e.1]
            meta := objSet acc.meta e.1
              { ((mapGet acc.meta e.1).getD emptyMeta) with spaceId := some "default" }
            moved := if e.1 ∈ acc.moved then acc.moved else acc.moved ++ [e.1] } := by
        unfold migrateMetaStep
        rw [if_pos hc]
      rw [hstep, ih _ hnd.2]
      by_cases hte : t = e.1
      · simp only [hte]
        rw [if_neg (by rintro ⟨hk, -⟩; exact hnd.1 hk)]
        rw [objGet_objSet_self]
        rw [if_pos ⟨by simp, hte ▸ hc⟩]
        rfl
      · rw [objGet_objSet_ne _ _ _ _ hte]
        by_cases hsel : t ∈ rest.map Prod.fst ∧
            (mapGet acc.meta t).bind (fun m => m.spaceId) = some spaceId
        · rw [if_pos hsel, if_pos ⟨by simp [hsel.1], hsel.2⟩]
        · rw [if_neg hsel]
          rw [if_neg ?hng]
          case hng =>
            rintro ⟨hk, hm⟩
            simp only [List.map_cons, List.mem_cons] at hk
            rcases hk with hk | hk
            · exact hte hk
            · exact hsel ⟨hk, hm⟩
    · have hstep : migrateMetaStep spaceId acc e = acc := by
        unfold migrateMetaStep
        rw [if_neg hc]
      rw [hstep, ih _ hnd.2]
      by_cases hsel : t ∈ rest.map Prod.fst ∧
          (mapGet acc.meta t).bind (fun m => m.spaceId) = some spaceId
      · rw [if_pos hsel, if_pos ⟨by simp [hsel.1], hsel.2⟩]
      · rw [if_neg hsel]
        rw [if_neg ?hng2]
        case hng2 =>
          rintro ⟨hk, hm⟩
          simp only [List.map_cons, List.mem_cons] at hk
          rcases hk with hk | hk
          · rw [hk] at hm
            exact hc hm
          · exact hsel ⟨hk, hm⟩

theorem findSpace_filter_ne (l : List Space) (spaceId sid : String) (h : sid ≠ spaceId) :
    findSpace (l.filter (fun s => s.id ≠ spaceId)) sid = findSpace l sid := by
  induction l with
  | nil => rfl
  | cons s rest ih =>
    by_cases hs : s.id = spaceId
    · have hsid : ¬ s.id = sid := by rw [hs]; exact fun hh => h hh.symm
      rw [List.filter_cons, if_neg (by simp [hs])]
      unfold findSpace
      rw [List.find?_cons_of_neg _ (by simp [hsid])]
      exact ih
    · rw [List.filter_cons, if_pos (by simp [hs])]
      by_cases hsid : s.id = sid
      · unfold findSpace
        rw [List.find?_cons_of_pos _ (by simp [hsid]), List.find?_cons_of_pos _ (by simp [hsid])]
      · unfold findSpace
        rw [List.find?_cons_of_neg _ (by simp [hsid]), List.find?_cons_of_neg _ (by simp [hsid])]
        exact ih

/-- C5: `removeSpace` on the default id is a no-op returning `[]`; on any
other existing workspace (with the default space present, as `initialize()`
guarantees, and well-formed metadata keys) it removes that workspace,
inserts every member tab id into the default workspace's member list,
rewrites each migrated tab's stored workspaceId to `default`, and returns
exactly the migrated ids: the members of the removed space together with
the tabs whose metadata still referenced it. -/
theorem removeSpace_spec (st : SMState) (spaceId : String) (d sp : Space)
    (hd : findSpace st.spaces "default" = some d)
    (hsp : findSpace st.spaces spaceId = some sp)
    (hne : spaceId ≠ "default")
    (hmeta : (st.tabMetadata.map Prod.fst).Pairwise (· < ·)) :
    removeSpace st "default" = ([], st) ∧
    (∀ s ∈ (removeSpace st spaceId).2.spaces, s.id ≠ spaceId) ∧
    (∀ t ∈ sp.tabIds,
      t ∈ ((findSpace (removeSpace st spaceId).2.spaces "default").map Space.tabIds).getD []) ∧
    (∀ t ∈ (removeSpace st spaceId).1,
      storedSpaceId (removeSpace st spaceId).2.tabMetadata t = "default") ∧
    (∀ t, t ∈ (removeSpace st spaceId).1 ↔
      t ∈ sp.tabIds ∨ (mapGet st.tabMetadata t).bind (fun m => m.spaceId) = some spaceId) := by
  have hdne : ("default" : String) ≠ spaceId := fun hh => hne hh.symm
  set acc0 : MigrateAcc :=
    { defaultTabIds := d.tabIds, meta := st.tabMetadata, moved := [] } with hacc0
  set acc1 := sp.tabIds.foldl migrateMemberStep acc0 with hacc1
  set acc2 := acc1.meta.foldl (migrateMetaStep spaceId) acc1 with hacc2
  set fD : Space → Space := fun s => { s with tabIds := acc2.defaultTabIds } with hfD
  have hfD_id : ∀ s, (fD s).id = s.id := fun s => rfl
  have heval : removeSpace st spaceId =
      (acc2.moved,
       { spaces := updateFirstSpace (st.spaces.filter (fun s => s.id ≠ spaceId)) "default" fD
         tabMetadata := acc2.meta }) := by
    rw [removeSpace, if_neg hne, hd, hsp]
  -- facts about the two migration loops
  have pair1 : ((acc1.meta).map Prod.fst).Pairwise (· < ·) :=
    migrateMember_fold_pairwise sp.tabIds acc0 hmeta
  have nd1 : ((acc1.meta).map Prod.fst).Nodup :=
    pair1.imp (fun h => Nat.ne_of_lt h)
  have hbind1 : ∀ t, (mapGet acc1.meta t).bind (fun m => m.spaceId) =
      if t ∈ sp.tabIds then some "default"
      else (mapGet st.tabMetadata t).bind (fun m => m.spaceId) :=
    fun t => migrateMember_fold_meta sp.tabIds acc0 t
  have hkeys1 : ∀ t, t ∈ (acc1.meta).map Prod.fst ↔
      t ∈ st.tabMetadata.map Prod.fst ∨ t ∈ sp.tabIds :=
    fun t => migrateMember_fold_keys sp.tabIds acc0 t
  have hmoved1 : ∀ t, t ∈ acc1.moved ↔ t ∈ sp.tabIds := by
    intro t
    rw [hacc1, migrateMember_fold_moved]
    simp
  have hdt1 : ∀ t, t ∈ acc1.defaultTabIds ↔ t ∈ d.tabIds ∨ t ∈ sp.tabIds :=
    fun t => migrateMember_fold_default sp.tabIds acc0 t
  have hmoved2 : ∀ t, t ∈ acc2.moved ↔ t ∈ acc1.moved ∨
      (t ∈ (acc1.meta).map Prod.fst ∧
        (mapGet acc1.meta t).bind (fun m => m.spaceId) = some spaceId) :=
    fun t => migrateMeta_fold_moved spaceId acc1.meta acc1 t nd1
  have hdt2 : ∀ t, t ∈ acc2.defaultTabIds ↔ t ∈ acc1.defaultTabIds ∨
      (t ∈ (acc1.meta).map Prod.fst ∧
        (mapGet acc1.meta t).bind (fun m => m.spaceId) = some spaceId) :=
    fun t => migrateMeta_fold_default spaceId acc1.meta acc1 t nd1
  have hbind2 : ∀ t, (mapGet acc2.meta t).bind (fun m => m.spaceId) =
      if t ∈ (acc1.meta).map Prod.fst ∧
          (mapGet acc1.meta t).bind (fun m => m.spaceId) = some spaceId
      then some "default"
      else (mapGet acc1.meta t).bind (fun m => m.spaceId) :=
    fun t => migrateMeta_fold_meta spaceId acc1.meta acc1 t nd1
  -- the five conclusions
  refine ⟨by rw [removeSpace, if_pos rfl], ?_, ?_, ?_, ?_⟩
  · rw [heval]
    intro s hs
    rcases mem_updateFirstSpace _ _ _ _ hs with h1 | ⟨u, hu, huid, hue⟩
    · have := List.of_mem_filter h1
      simpa using this
    · rw [hue]
      show u.id ≠ spaceId
      rw [huid]
      exact hdne
  · intro t ht
    rw [heval]
    have hff : findSpace (st.spaces.filter (fun s => s.id ≠ spaceId)) "default" = some d := by
      rw [findSpace_filter_ne _ _ _ hdne, hd]
    have := findSpace_updateFirstSpace_self
      (st.spaces.filter (fun s => s.id ≠ spaceId)) "default" fD hfD_id
    rw [hff] at this
    show t ∈ ((findSpace _ "default").map Space.tabIds).getD []
    rw [this]
    show t ∈ (fD d).tabIds
    show t ∈ acc2.defaultTabIds
    rw [hdt2, hdt1]
    exact Or.inl (Or.inr ht)
  · intro t ht
    rw [heval] at ht ⊢
    show storedSpaceId acc2.meta t = "default"
    unfold storedSpaceId
    rw [hbind2 t]
    have hmv : t ∈ acc2.moved := ht
    rw [hmoved2, hmoved1] at hmv
    rcases hmv with hmem | ⟨hk, hb⟩
    · have hb1 : (mapGet acc1.meta t).bind (fun m => m.spaceId) = some "default" := by
        rw [hbind1, if_pos hmem]
      rw [if_neg ?hng]
      case hng =>
        rintro ⟨-, hbb⟩
        rw [hb1] at hbb
        exact hne (Option.some_inj.mp hbb).symm
      rw [hb1]
      rfl
    · rw [if_pos ⟨hk, hb⟩]
      rfl
  · intro t
    rw [heval]
    show t ∈ acc2.moved ↔ _
    rw [hmoved2, hmoved1]
    by_cases hmem : t ∈ sp.tabIds
    · constructor
      · intro _
        exact Or.inl hmem
      · intro _
        exact Or.inl hmem
    · have hb1 : (mapGet acc1.meta t).bind (fun m => m.spaceId) =
          (mapGet st.tabMetadata t).bind (fun m => m.spaceId) := by
        rw [hbind1, if_neg hmem]
      constructor
      · rintro (h | ⟨-, hb⟩)
        · exact absurd h hmem
        · rw [hb1] at hb
          exact Or.inr hb
      · rintro (h | hb)
        · exact absurd h hmem
        · refine Or.inr ⟨?_, by rw [hb1]; exact hb⟩
          rw [hkeys1]
          left
          rw [Option.bind_eq_some] at hb
          obtain ⟨m, hm, -⟩ := hb
          exact mapGet_mem_keys _ _ _ hm

/-- The `work` space of the C5 scenario, holding tabs 3 and 5. -/
def work35Space : Space :=
  { id := "work"
    name := "Work"
    color := "#ff0000"
    icon := none
    tabIds := [3, 5]
    rules := []
    createdAt := 0
    lastAccessedAt := 0 }

/-- The C5 scenario state: default space empty, `work` = {3, 5}, metadata
storing both tabs under `work`. -/
def stWork35 : SMState :=
  { spaces := [defaultSpaceAt 0, work35Space]
    tabMetadata := [(3, { spaceId := some "work", lastActiveAt := none }),
                    (5, { spaceId := some "work", lastActiveAt := none })] }

/-- Witness for C5 at the spec's scenario: deleting `work` containing
{3, 5} migrates both tabs (they appear in the returned id list) and both
tabs' stored workspaceId becomes `default`. -/
theorem removeSpace_spec_witness :
    3 ∈ (removeSpace stWork35 "work").1 ∧
    5 ∈ (removeSpace stWork35 "work").1 ∧
    storedSpaceId (removeSpace stWork35 "work").2.tabMetadata 3 = "default" ∧
    storedSpaceId (removeSpace stWork35 "work").2.tabMetadata 5 = "default" := by
  have h := removeSpace_spec stWork35 "work" (defaultSpaceAt 0) work35Space
    rfl rfl (by decide) (by decide)
  have h3 : 3 ∈ (removeSpace stWork35 "work").1 :=
    (h.2.2.2.2 3).mpr (Or.inl (by decide))
  have h5 : 5 ∈ (removeSpace stWork35 "work").1 :=
    (h.2.2.2.2 5).mpr (Or.inl (by decide))
  exact ⟨h3, h5, h.2.2.2.1 3 h3, h.2.2.2.1 5 h5⟩

/-! ### C1: partition invariant — auxiliary lemmas -/

theorem mem_pushTabIfAbsent_iff (x t : Nat) (s : Space) :
    t ∈ (pushTabIfAbsent x s).tabIds ↔ t ∈ s.tabIds ∨ t = x := by
  unfold pushTabIfAbsent
  by_cases h : x ∈ s.tabIds
  · rw [if_pos h]
    constructor
    · exact Or.inl
    · rintro (ht | rfl)
      · exact ht
      · exact h
  · rw [if_neg h]
    simp

theorem modifyIdx_getElem_ne {α : Type} (l : List α) (i j : Nat) (f : α → α)
    (h : j ≠ i) : (modifyIdx l i f)[j]? = l[j]? := by
  induction l generalizing i j with
  | nil => rfl
  | cons a rest ih =>
    cases i with
    | zero =>
      cases j with
      | zero => exact absurd rfl h
      | succ m => simp [modifyIdx]
    | succ n =>
      cases j with
      | zero => simp [modifyIdx]
      | succ m =>
        simp only [modifyIdx, List.getElem?_cons_succ]
        exact ih n m (fun hh => h (by rw [hh]))

/-- A `lastActiveAt`-only patch never changes any tab's effective stored
workspace id. -/
theorem storedSpaceId_setLastActive (meta : List (Nat × TabMeta)) (tabId t u : Nat) :
    storedSpaceId (objSet meta tabId
      (mergeMeta ((mapGet meta tabId).getD emptyMeta)
        { spaceId := none, lastActiveAt := some t })) u = storedSpaceId meta u := by
  by_cases hu : u = tabId
  · subst hu
    unfold storedSpaceId
    rw [objGet_objSet_self]
    cases hm : mapGet meta u with
    | none => simp [hm, mergeMeta, emptyMeta]
    | some m => simp [hm, mergeMeta]
  · exact storedSpaceId_objSet_ne _ _ _ _ hu

theorem migrateMeta_fold_pairwise (spaceId : String) (E : List (Nat × TabMeta))
    (acc : MigrateAcc) (h : (acc.meta.map Prod.fst).Pairwise (· < ·)) :
    (((E.foldl (migrateMetaStep spaceId) acc).meta).map Prod.fst).Pairwise (· < ·) := by
  induction E generalizing acc with
  | nil => exact h
  | cons e rest ih =>
    rw [List.foldl_cons]
    apply ih
    unfold migrateMetaStep
    by_cases hc : (mapGet acc.meta e.1).bind (fun m => m.spaceId) = some spaceId
    · rw [if_pos hc]
      exact objSet_keys_pairwise _ _ _ h
    · rw [if_neg hc]
      exact h

theorem normalizeSpaces_ids_ne (now : Nat) (spaces : List Space) :
    ∀ s ∈ normalizeSpaces now spaces, s.id ≠ "" := by
  intro s hs
  unfold normalizeSpaces at hs
  by_cases hd : (spaces.enum.map (fun p => normalizeOneSpace now p.1 p.2)).any
      (fun s => s.id = "default")
  · rw [if_pos hd] at hs
    rw [List.mem_map] at hs
    obtain ⟨p, hp, rfl⟩ := hs
    unfold normalizeOneSpace
    by_cases he : p.2.id = ""
    · simp only [if_pos he]
      exact string_append_ne_empty _
    · simp only [if_neg he]
      exact he
  · rw [if_neg hd] at hs
    rcases List.mem_cons.mp hs with rfl | hs
    · intro hh
      have hdd : ("default" : String) = "" := hh
      exact absurd hdd (by decide)
    · rw [List.mem_map] at hs
      obtain ⟨p, hp, rfl⟩ := hs
      unfold normalizeOneSpace
      by_cases he : p.2.id = ""
      · simp only [if_pos he]
        exact string_append_ne_empty _
      · simp only [if_neg he]
        exact he

theorem normalizeSpaces_default_mem (now : Nat) (spaces : List Space) :
    "default" ∈ (normalizeSpaces now spaces).map Space.id := by
  unfold normalizeSpaces
  by_cases hd : (spaces.enum.map (fun p => normalizeOneSpace now p.1 p.2)).any
      (fun s => s.id = "default")
  · rw [if_pos hd]
    rw [List.any_eq_true] at hd
    obtain ⟨s, hs, hid⟩ := hd
    simp only [decide_eq_true_eq] at hid
    exact List.mem_map.mpr ⟨s, hs, hid⟩
  · rw [if_neg hd]
    exact List.mem_map.mpr ⟨defaultSpaceAt now, List.mem_cons_self _ _, rfl⟩

/-- Distinct space ids plus membership-metadata agreement give pairwise
disjoint member lists. -/
theorem inv_disjoint (st : SMState)
    (hnd : (st.spaces.map Space.id).Nodup) (hmatch : listedSpaceMatches st) :
    st.spaces.Pairwise (fun s1 s2 => ∀ t, t ∈ s1.tabIds → t ∉ s2.tabIds) := by
  have hpw : st.spaces.Pairwise (fun s1 s2 => s1.id ≠ s2.id) :=
    List.pairwise_map.mp hnd
  refine hpw.imp_of_mem ?_
  intro s1 s2 h1 h2 hne t ht1 ht2
  have e1 := hmatch s1 h1 t ht1
  have e2 := hmatch s2 h2 t ht2
  exact hne (e1 ▸ e2 ▸ rfl)

/-- Invariant carried through the `rebuildSpaceTabIds` fold: `spaces0` are
the spaces at load time (their ids never change during the fold), `meta0`
the persisted metadata snapshot being iterated, `processed` the keys
handled so far. -/
structure RebuildInv (spaces0 : List Space) (meta0 : List (Nat × TabMeta))
    (processed : List Nat) (acc : List Space × List (Nat × TabMeta)) : Prop where
  ids_eq : acc.1.map Space.id = spaces0.map Space.id
  pairw : (acc.2.map Prod.fst).Pairwise (· < ·)
  keys_iff : ∀ k, k ∈ acc.2.map Prod.fst ↔ k ∈ meta0.map Prod.fst
  untouched : ∀ k, k ∉ processed → mapGet acc.2 k = mapGet meta0 k
  stored_match : ∀ s ∈ acc.1, ∀ t ∈ s.tabIds,
    t ∈ processed ∧ storedSpaceId acc.2 t = s.id
  covered : ∀ k ∈ processed, ∃ s ∈ acc.1, k ∈ s.tabIds

theorem rebuildStep_inv (spaces0 : List Space) (meta0 : List (Nat × TabMeta))
    (processed : List Nat) (acc : List Space × List (Nat × TabMeta)) (e : Nat × TabMeta)
    (he_mem : e ∈ meta0)
    (he_new : e.1 ∉ processed)
    (hm0 : (meta0.map Prod.fst).Pairwise (· < ·))
    (hdef : "default" ∈ spaces0.map Space.id)
    (hne : ∀ sid ∈ spaces0.map Space.id, sid ≠ "")
    (hinv : RebuildInv spaces0 meta0 processed acc) :
    RebuildInv spaces0 meta0 (processed ++ [e.1]) (rebuildStep acc e) := by
  have hdef1 : "default" ∈ acc.1.map Space.id := by rw [hinv.ids_eq]; exact hdef
  have hidx : ∃ i, (match lastSpaceIdx acc.1 (jsOrDefault e.2.spaceId) with
      | some i => some i
      | none => lastSpaceIdx acc.1 "default") = some i := by
    cases h1 : lastSpaceIdx acc.1 (jsOrDefault e.2.spaceId) with
    | some i => exact ⟨i, rfl⟩
    | none =>
      cases h2 : lastSpaceIdx acc.1 "default" with
      | some i => exact ⟨i, rfl⟩
      | none =>
        rw [lastSpaceIdx_eq_none_iff] at h2
        rw [List.mem_map] at hdef1
        obtain ⟨s, hs, hid⟩ := hdef1
        exact absurd hid (h2 s hs)
  obtain ⟨i, hi⟩ := hidx
  have hi' : lastSpaceIdx acc.1 (jsOrDefault e.2.spaceId) = some i ∨
      lastSpaceIdx acc.1 "default" = some i := by
    cases h1 : lastSpaceIdx acc.1 (jsOrDefault e.2.spaceId) with
    | some j =>
      rw [h1] at hi
      exact Or.inl hi
    | none =>
      rw [h1] at hi
      exact Or.inr hi
  obtain ⟨a, hga⟩ : ∃ a, acc.1[i]? = some a := by
    rcases hi' with h | h
    · obtain ⟨a, hga, -⟩ := lastSpaceIdx_some _ _ _ h
      exact ⟨a, hga⟩
    · obtain ⟨a, hga, -⟩ := lastSpaceIdx_some _ _ _ h
      exact ⟨a, hga⟩
  have hamem : a ∈ acc.1 := List.mem_iff_getElem?.mpr ⟨i, hga⟩
  have haid_ne : a.id ≠ "" := by
    have hin : a.id ∈ spaces0.map Space.id := by
      rw [← hinv.ids_eq]
      exact List.mem_map.mpr ⟨a, hamem, rfl⟩
    exact hne _ hin
  have hstep : rebuildStep acc e =
      (modifyIdx acc.1 i (pushTabIfAbsent e.1),
       if e.2.spaceId ≠ some a.id
         then objSet acc.2 e.1 { e.2 with spaceId := some a.id }
         else acc.2) := by
    unfold rebuildStep
    simp only [hi, hga, Option.map_some', Option.getD_some]
  have hstep1 : (rebuildStep acc e).1 = modifyIdx acc.1 i (pushTabIfAbsent e.1) := by
    rw [hstep]
  have hstep2 : (rebuildStep acc e).2 =
      (if e.2.spaceId ≠ some a.id
        then objSet acc.2 e.1 { e.2 with spaceId := some a.id }
        else acc.2) := by
    rw [hstep]
  have hstored_e : storedSpaceId (rebuildStep acc e).2 e.1 = a.id := by
    rw [hstep2]
    by_cases hb : e.2.spaceId ≠ some a.id
    · rw [if_pos hb]
      rw [storedSpaceId_objSet_self]
      show jsOrDefault (some a.id) = a.id
      simp [jsOrDefault, haid_ne]
    · rw [if_neg hb, not_ne_iff] at *
      show storedSpaceId acc.2 e.1 = a.id
      unfold storedSpaceId
      rw [hinv.untouched e.1 he_new,
        mapGet_of_mem_pairwise meta0 e.1 e.2 hm0 (by rw [Prod.mk.eta]; exact he_mem)]
      show jsOrDefault e.2.spaceId = a.id
      rw [hb]
      simp [jsOrDefault, haid_ne]
  have hstored_ne : ∀ u, u ≠ e.1 →
      storedSpaceId (rebuildStep acc e).2 u = storedSpaceId acc.2 u := by
    intro u hu
    rw [hstep2]
    by_cases hb : e.2.spaceId ≠ some a.id
    · rw [if_pos hb]
      exact storedSpaceId_objSet_ne _ _ _ _ hu
    · rw [if_neg hb]
  refine ⟨?_, ?_, ?_, ?_, ?_, ?_⟩
  · rw [hstep1, modifyIdx_map_eq _ _ _ _ (pushTabIfAbsent_id e.1), hinv.ids_eq]
  · rw [hstep2]
    by_cases hb : e.2.spaceId ≠ some a.id
    · rw [if_pos hb]
      exact objSet_keys_pairwise _ _ _ hinv.pairw
    · rw [if_neg hb]
      exact hinv.pairw
  · intro k
    rw [hstep2]
    by_cases hb : e.2.spaceId ≠ some a.id
    · rw [if_pos hb, objSet_keys_mem]
      constructor
      · rintro (rfl | hk)
        · exact List.mem_map.mpr ⟨e, he_mem, rfl⟩
        · exact (hinv.keys_iff k).mp hk
      · intro hk
        exact Or.inr ((hinv.keys_iff k).mpr hk)
    · rw [if_neg hb]
      exact hinv.keys_iff k
  · intro k hk
    have hk1 : k ∉ processed := fun h => hk (List.mem_append_left _ h)
    have hk2 : k ≠ e.1 := fun h =>
      hk (List.mem_append_right _ (by rw [h]; exact List.mem_cons_self _ _))
    rw [hstep2]
    by_cases hb : e.2.spaceId ≠ some a.id
    · rw [if_pos hb, objGet_objSet_ne _ _ _ _ hk2]
      exact hinv.untouched k hk1
    · rw [if_neg hb]
      exact hinv.untouched k hk1
  · intro s' hs' t ht
    rw [hstep1] at hs'
    rcases mem_modifyIdx _ _ _ _ hs' with hold | ⟨b, hb, he⟩
    · have hm := hinv.stored_match s' hold t ht
      have htne : t ≠ e.1 := fun hh => he_new (hh ▸ hm.1)
      exact ⟨List.mem_append_left _ hm.1, (hstored_ne t htne).trans hm.2⟩
    · rw [hga] at hb
      obtain rfl : a = b := Option.some_inj.mp hb
      subst he
      rw [mem_pushTabIfAbsent_iff] at ht
      rcases ht with ht | rfl
      · have hm := hinv.stored_match a hamem t ht
        have htne : t ≠ e.1 := fun hh => he_new (hh ▸ hm.1)
        refine ⟨List.mem_append_left _ hm.1, ?_⟩
        rw [pushTabIfAbsent_id, hstored_ne t htne, hm.2]
      · refine ⟨List.mem_append_right _ (List.mem_cons_self _ _), ?_⟩
        rw [pushTabIfAbsent_id]
        exact hstored_e
  · intro k hk
    rw [hstep1]
    rcases List.mem_append.mp hk with hk | hk
    · obtain ⟨s, hsmem, hks⟩ := hinv.covered k hk
      obtain ⟨j, hj⟩ := List.mem_iff_getElem?.mp hsmem
      by_cases hji : j = i
      · subst hji
        rw [hj] at hga
        obtain rfl : s = a := Option.some_inj.mp hga
        refine ⟨pushTabIfAbsent e.1 s, modifyIdx_mem_self _ _ _ _ hj, ?_⟩
        rw [mem_pushTabIfAbsent_iff]
        exact Or.inl hks
      · refine ⟨s, ?_, hks⟩
        apply List.mem_iff_getElem?.mpr
        exact ⟨j, by rw [modifyIdx_getElem_ne _ _ _ _ hji]; exact hj⟩
    · simp only [List.mem_singleton] at hk
      subst hk
      refine ⟨pushTabIfAbsent e.1 a, modifyIdx_mem_self _ _ _ _ hga, ?_⟩
      rw [mem_pushTabIfAbsent_iff]
      exact Or.inr rfl

theorem rebuild_fold_inv (spaces0 : List Space) (meta0 : List (Nat × TabMeta))
    (remaining : List (Nat × TabMeta)) (processed : List Nat)
    (acc : List Space × List (Nat × TabMeta))
    (hrem_sub : ∀ p ∈ remaining, p ∈ meta0)
    (hrem_nd : (remaining.map Prod.fst).Nodup)
    (hrem_disj : ∀ k ∈ remaining.map Prod.fst, k ∉ processed)
    (hm0 : (meta0.map Prod.fst).Pairwise (· < ·))
    (hdef : "default" ∈ spaces0.map Space.id)
    (hne : ∀ sid ∈ spaces0.map Space.id, sid ≠ "")
    (hinv : RebuildInv spaces0 meta0 processed acc) :
    RebuildInv spaces0 meta0 (processed ++ remaining.map Prod.fst)
      (remaining.foldl rebuildStep acc) := by
  induction remaining generalizing processed acc with
  | nil => simpa using hinv
  | cons e rest ih =>
    simp only [List.map_cons, List.nodup_cons] at hrem_nd
    rw [List.foldl_cons]
    have hstep := rebuildStep_inv spaces0 meta0 processed acc e
      (hrem_sub e (List.mem_cons_self _ _))
      (hrem_disj e.1 (by simp))
      hm0 hdef hne hinv
    have hres := ih (processed ++ [e.1]) (rebuildStep acc e)
      (fun p hp => hrem_sub p (List.mem_cons_of_mem _ hp))
      hrem_nd.2
      (fun k hk hmem => by
        rcases List.mem_append.mp hmem with h | h
        · exact hrem_disj k (by simp [hk]) h
        · simp only [List.mem_singleton] at h
          exact hrem_nd.1 (h ▸ hk))
      hstep
    simp only [List.map_cons]
    rw [List.append_cons]
    exact hres

theorem smInitialize_inv (ps : List Space) (pm : List (Nat × TabMeta)) (now : Nat)
    (hids : ((normalizeSpaces now ps).map Space.id).Nodup)
    (hmeta : (pm.map Prod.fst).Pairwise (· < ·)) :
    SMInv (smInitialize ps pm now) ∧
    "default" ∈ (smInitialize ps pm now).spaces.map Space.id ∧
    (∀ k, (∃ s ∈ (smInitialize ps pm now).spaces, k ∈ s.tabIds) ↔
      k ∈ (smInitialize ps pm now).tabMetadata.map Prod.fst) := by
  have hdef := normalizeSpaces_default_mem now ps
  have hne0 := normalizeSpaces_ids_ne now ps
  have hne' : ∀ sid ∈ (normalizeSpaces now ps).map Space.id, sid ≠ "" := by
    intro sid hsid
    rw [List.mem_map] at hsid
    obtain ⟨s, hs, rfl⟩ := hsid
    exact hne0 s hs
  have hbase : RebuildInv (normalizeSpaces now ps) pm []
      ((normalizeSpaces now ps).map (fun s => { s with tabIds := [] }), pm) := by
    refine ⟨?_, hmeta, fun k => Iff.rfl, fun k hk => rfl, ?_, ?_⟩
    · rw [List.map_map]
      rfl
    · intro s hs t ht
      exfalso
      rw [List.mem_map] at hs
      obtain ⟨u, hu, rfl⟩ := hs
      simp at ht
    · intro k hk
      exact absurd hk (List.not_mem_nil k)
  have hfold := rebuild_fold_inv (normalizeSpaces now ps) pm pm [] _
    (fun p hp => hp)
    (hmeta.imp (fun h => Nat.ne_of_lt h))
    (fun k hk => List.not_mem_nil k)
    hmeta hdef hne' hbase
  rw [List.nil_append] at hfold
  have hsp : (smInitialize ps pm now).spaces =
      (pm.foldl rebuildStep
        ((normalizeSpaces now ps).map (fun s => { s with tabIds := [] }), pm)).1 := rfl
  have hmt : (smInitialize ps pm now).tabMetadata =
      (pm.foldl rebuildStep
        ((normalizeSpaces now ps).map (fun s => { s with tabIds := [] }), pm)).2 := rfl
  refine ⟨⟨?_, ?_, ?_, ?_⟩, ?_, ?_⟩
  · rw [hsp, hfold.ids_eq]
    exact hids
  · intro s hs
    have : s.id ∈ (normalizeSpaces now ps).map Space.id := by
      rw [← hfold.ids_eq]
      rw [hsp] at hs
      exact List.mem_map.mpr ⟨s, hs, rfl⟩
    exact hne' _ this
  · rw [hmt]
    exact hfold.pairw
  · intro s hs t ht
    rw [hsp] at hs
    rw [hmt]
    exact (hfold.stored_match s hs t ht).2
  · rw [hsp, hfold.ids_eq]
    exact hdef
  · intro k
    constructor
    · rintro ⟨s, hs, hks⟩
      rw [hsp] at hs
      rw [hmt]
      exact (hfold.keys_iff k).mpr (hfold.stored_match s hs k hks).1
    · intro hk
      rw [hmt] at hk
      obtain ⟨s, hs, hks⟩ := hfold.covered k ((hfold.keys_iff k).mp hk)
      rw [hsp]
      exact ⟨s, hs, hks⟩

/-! ### C1: invariant preservation by the StateManager operations -/

theorem setTabMetadata_spaces (st : SMState) (tabId : Nat) (p : MetaPatch) :
    (setTabMetadata st tabId p).spaces = st.spaces := rfl

theorem setTabMetadata_tabMetadata (st : SMState) (tabId : Nat) (p : MetaPatch) :
    (setTabMetadata st tabId p).tabMetadata =
      objSet st.tabMetadata tabId
        (mergeMeta ((mapGet st.tabMetadata tabId).getD emptyMeta) p) := rfl

theorem SMInv_setTabMetadata (st : SMState) (tabId t : Nat) (h : SMInv st) :
    SMInv (setTabMetadata st tabId { spaceId := none, lastActiveAt := some t }) := by
  obtain ⟨hnd, hne, hpw, hmatch⟩ := h
  refine ⟨?_, ?_, ?_, ?_⟩
  · rw [setTabMetadata_spaces]
    exact hnd
  · rw [setTabMetadata_spaces]
    exact hne
  · rw [setTabMetadata_tabMetadata]
    exact objSet_keys_pairwise _ _ _ hpw
  · intro s hs u hu
    rw [setTabMetadata_spaces] at hs
    rw [setTabMetadata_tabMetadata, storedSpaceId_setLastActive]
    exact hmatch s hs u hu

theorem removeTabMetadataSM_spaces (st : SMState) (tabId : Nat) :
    (removeTabMetadataSM st tabId).spaces =
      st.spaces.map (fun s => { s with tabIds := s.tabIds.filter (fun id => id ≠ tabId) }) := rfl

theorem removeTabMetadataSM_tabMetadata (st : SMState) (tabId : Nat) :
    (removeTabMetadataSM st tabId).tabMetadata = mapDelete st.tabMetadata tabId := rfl

theorem SMInv_removeTabMetadataSM (st : SMState) (tabId : Nat) (h : SMInv st) :
    SMInv (removeTabMetadataSM st tabId) := by
  obtain ⟨hnd, hne, hpw, hmatch⟩ := h
  refine ⟨?_, ?_, ?_, ?_⟩
  · rw [removeTabMetadataSM_spaces, List.map_map]
    exact hnd
  · intro s hs
    rw [removeTabMetadataSM_spaces] at hs
    obtain ⟨v, hv, rfl⟩ := List.mem_map.mp hs
    exact hne v hv
  · rw [removeTabMetadataSM_tabMetadata]
    exact List.Pairwise.sublist
      (List.Sublist.map _ (List.filter_sublist _)) hpw
  · intro s hs u hu
    rw [removeTabMetadataSM_spaces] at hs
    obtain ⟨v, hv, rfl⟩ := List.mem_map.mp hs
    have hu' := List.mem_filter.mp hu
    have hune : u ≠ tabId := by simpa using hu'.2
    rw [removeTabMetadataSM_tabMetadata, storedSpaceId_mapDelete_ne _ _ _ hune]
    exact hmatch v hv u hu'.1

theorem addSpace_spaces (st : SMState) (name color : String) (icon : Option String)
    (now : Nat) : (addSpace st name color icon now).2.spaces =
      st.spaces ++ [(addSpace st name color icon now).1] := rfl

theorem SMInv_addSpace (st : SMState) (name color : String) (icon : Option String)
    (now : Nat) (hfresh : ∀ s ∈ st.spaces, s.id ≠ "space_" ++ toString now)
    (h : SMInv st) : SMInv (addSpace st name color icon now).2 := by
  obtain ⟨hnd, hne, hpw, hmatch⟩ := h
  refine ⟨?_, ?_, hpw, ?_⟩
  · rw [addSpace_spaces, List.map_append, List.nodup_append]
    refine ⟨hnd, by simp, ?_⟩
    intro a ha hb
    simp only [List.map_cons, List.map_nil, List.mem_singleton] at hb
    rw [List.mem_map] at ha
    obtain ⟨s, hs, rfl⟩ := ha
    exact hfresh s hs hb
  · intro s hs
    rw [addSpace_spaces] at hs
    rcases List.mem_append.mp hs with h | h
    · exact hne s h
    · simp only [List.mem_singleton] at h
      subst h
      exact string_append_ne_empty _
  · intro s hs u hu
    rw [addSpace_spaces] at hs
    rcases List.mem_append.mp hs with h | h
    · exact hmatch s h u hu
    · simp only [List.mem_singleton] at h
      subst h
      exact absurd hu (List.not_mem_nil u)

theorem updateSpaceSM_spaces (st : SMState) (spaceId : String) (u : SpaceUpdates) :
    (updateSpaceSM st spaceId u).spaces =
      updateFirstSpace st.spaces spaceId (fun s => applySpaceUpdates s u) := rfl

theorem SMInv_updateSpaceSM (st : SMState) (spaceId : String) (u : SpaceUpdates)
    (h : SMInv st) : SMInv (updateSpaceSM st spaceId u) := by
  obtain ⟨hnd, hne, hpw, hmatch⟩ := h
  have hfid : ∀ s, (applySpaceUpdates s u).id = s.id := fun s => rfl
  refine ⟨?_, ?_, hpw, ?_⟩
  · rw [updateSpaceSM_spaces, updateFirstSpace_ids _ _ _ hfid]
    exact hnd
  · intro s hs
    rw [updateSpaceSM_spaces] at hs
    rcases mem_updateFirstSpace _ _ _ _ hs with h | ⟨v, hv, -, rfl⟩
    · exact hne s h
    · rw [hfid]
      exact hne v hv
  · intro s hs t ht
    rw [updateSpaceSM_spaces] at hs
    rcases mem_updateFirstSpace _ _ _ _ hs with h | ⟨v, hv, -, rfl⟩
    · exact hmatch s h t ht
    · rw [hfid]
      exact hmatch v hv t ht

/-- Every space of the post-removal list contains only tabs whose stored id
is that space's id (the filtered space included). -/
theorem assign_spaces1_match (st : SMState) (tabId : Nat)
    (hmatch : listedSpaceMatches st) (s1 : Space)
    (hs1 : s1 ∈ updateFirstSpace st.spaces (storedSpaceId st.tabMetadata tabId)
      (fun s => { s with tabIds := s.tabIds.filter (fun id => id ≠ tabId) }))
    (t : Nat) (ht : t ∈ s1.tabIds) : storedSpaceId st.tabMetadata t = s1.id := by
  rcases mem_updateFirstSpace _ _ _ _ hs1 with h | ⟨v, hv, -, rfl⟩
  · exact hmatch s1 h t ht
  · show storedSpaceId st.tabMetadata t = v.id
    have ht' := List.mem_filter.mp ht
    exact hmatch v hv t ht'.1

/-- After removing the tab from the space named by its stored id, no space
of the resulting list contains it (given distinct ids and the membership
invariant). -/
theorem assign_removed_not_mem (st : SMState) (tabId : Nat)
    (hnd : (st.spaces.map Space.id).Nodup) (hmatch : listedSpaceMatches st)
    (s1 : Space)
    (hs1 : s1 ∈ updateFirstSpace st.spaces (storedSpaceId st.tabMetadata tabId)
      (fun s => { s with tabIds := s.tabIds.filter (fun id => id ≠ tabId) })) :
    tabId ∉ s1.tabIds := by
  intro htmem
  set fRemove : Space → Space :=
    fun s => { s with tabIds := s.tabIds.filter (fun id => id ≠ tabId) } with hfR
  have hfid : ∀ s, (fRemove s).id = s.id := fun s => rfl
  rcases mem_updateFirstSpace _ _ _ _ hs1 with h2 | ⟨u, hu, huid, rfl⟩
  · have hstored : storedSpaceId st.tabMetadata tabId = s1.id := hmatch s1 h2 tabId htmem
    have hforig : findSpace st.spaces (storedSpaceId st.tabMetadata tabId) = some s1 := by
      rw [hstored]
      exact findSpace_eq_of_nodup _ _ hnd h2
    have hf1 : findSpace (updateFirstSpace st.spaces (storedSpaceId st.tabMetadata tabId)
        fRemove) (storedSpaceId st.tabMetadata tabId) = some (fRemove s1) := by
      rw [findSpace_updateFirstSpace_self _ _ fRemove hfid, hforig]
      rfl
    have hf1' : findSpace (updateFirstSpace st.spaces (storedSpaceId st.tabMetadata tabId)
        fRemove) (storedSpaceId st.tabMetadata tabId) = some s1 := by
      nth_rewrite 2 [hstored]
      apply findSpace_eq_of_nodup
      · rw [updateFirstSpace_ids _ _ fRemove hfid]
        exact hnd
      · exact hs1
    rw [hf1] at hf1'
    have heq : fRemove s1 = s1 := Option.some_inj.mp hf1'
    have hids : s1.tabIds = (fRemove s1).tabIds := by rw [heq]
    rw [hids] at htmem
    have hmf := List.mem_filter.mp htmem
    simp at hmf
  · have := List.mem_filter.mp htmem
    simp at this

theorem SMInv_assign (st : SMState) (tabId : Nat) (spaceId : String) (h : SMInv st) :
    SMInv (assignTabToSpace st tabId spaceId).2 := by
  obtain ⟨hnd, hne, hpw, hmatch⟩ := h
  by_cases hearly : storedSpaceId st.tabMetadata tabId = spaceId
  · rw [assignTabToSpace, if_pos hearly]
    exact ⟨hnd, hne, hpw, hmatch⟩
  · set prev := storedSpaceId st.tabMetadata tabId with hprev
    set fRemove : Space → Space :=
      fun s => { s with tabIds := s.tabIds.filter (fun id => id ≠ tabId) } with hfR
    have hfR_id : ∀ s, (fRemove s).id = s.id := fun s => rfl
    set spaces1 := updateFirstSpace st.spaces prev fRemove with hsp1
    have hids1 : spaces1.map Space.id = st.spaces.map Space.id :=
      updateFirstSpace_ids _ _ _ hfR_id
    have hnd1 : (spaces1.map Space.id).Nodup := by rw [hids1]; exact hnd
    have hne1 : ∀ s ∈ spaces1, s.id ≠ "" := by
      intro s hs
      have hin : s.id ∈ st.spaces.map Space.id := by
        rw [← hids1]
        exact List.mem_map.mpr ⟨s, hs, rfl⟩
      rw [List.mem_map] at hin
      obtain ⟨v, hv, hveq⟩ := hin
      rw [← hveq]
      exact hne v hv
    have hmatch1 : ∀ s1 ∈ spaces1, ∀ t ∈ s1.tabIds,
        storedSpaceId st.tabMetadata t = s1.id :=
      fun s1 hs1 t ht => assign_spaces1_match st tabId hmatch s1 hs1 t ht
    have hnotin : ∀ s1 ∈ spaces1, tabId ∉ s1.tabIds :=
      fun s1 hs1 => assign_removed_not_mem st tabId hnd hmatch s1 hs1
    cases hns : (match findSpace spaces1 spaceId with
      | some s => some s
      | none => findSpace spaces1 "default") with
    | some s =>
      have hs_mem : s ∈ spaces1 := by
        cases h1 : findSpace spaces1 spaceId with
        | some u =>
          rw [h1] at hns
          obtain rfl : u = s := Option.some_inj.mp hns
          exact (findSpace_mem _ _ _ h1).1
        | none =>
          rw [h1] at hns
          exact (findSpace_mem _ _ _ hns).1
      have hsid_ne : s.id ≠ "" := hne1 s hs_mem
      have heval2 : (assignTabToSpace st tabId spaceId).2 =
          { spaces := updateFirstSpace spaces1 s.id (pushTabIfAbsent tabId)
            tabMetadata := objSet st.tabMetadata tabId
              (mergeMeta ((mapGet st.tabMetadata tabId).getD emptyMeta)
                { spaceId := some s.id, lastActiveAt := none }) } := by
        rw [assignTabToSpace, if_neg hearly]
        simp only [hns, Option.map_some', Option.getD_some]
      refine ⟨?_, ?_, ?_, ?_⟩
      · rw [heval2]
        show ((updateFirstSpace spaces1 s.id (pushTabIfAbsent tabId)).map Space.id).Nodup
        rw [updateFirstSpace_ids _ _ _ (pushTabIfAbsent_id tabId)]
        exact hnd1
      · intro s' hs'
        rw [heval2] at hs'
        rcases mem_updateFirstSpace _ _ _ _ hs' with h1 | ⟨v, hv, -, rfl⟩
        · exact hne1 s' h1
        · rw [pushTabIfAbsent_id]
          exact hne1 v hv
      · rw [heval2]
        exact objSet_keys_pairwise _ _ _ hpw
      · intro s' hs' t ht
        rw [heval2] at hs' ⊢
        rcases mem_updateFirstSpace _ _ _ _ hs' with h1 | ⟨v, hv, hvid, rfl⟩
        · have htne : t ≠ tabId := fun hh => hnotin s' h1 (hh ▸ ht)
          show storedSpaceId _ t = s'.id
          rw [storedSpaceId_objSet_ne _ _ _ _ htne]
          exact hmatch1 s' h1 t ht
        · have hpid : (pushTabIfAbsent tabId v).id = v.id := pushTabIfAbsent_id tabId v
          rw [mem_pushTabIfAbsent_iff] at ht
          rcases ht with ht | hteq
          · have htne : t ≠ tabId := fun hh => hnotin v hv (hh ▸ ht)
            show storedSpaceId _ t = (pushTabIfAbsent tabId v).id
            rw [storedSpaceId_objSet_ne _ _ _ _ htne, hpid]
            exact hmatch1 v hv t ht
          · show storedSpaceId _ t = (pushTabIfAbsent tabId v).id
            rw [hteq, hpid, hvid, storedSpaceId_objSet_self]
            show jsOrDefault (some s.id) = s.id
            simp [jsOrDefault, hsid_ne]
    | none =>
      have heval2 : (assignTabToSpace st tabId spaceId).2 =
          { spaces := spaces1
            tabMetadata := objSet st.tabMetadata tabId
              (mergeMeta ((mapGet st.tabMetadata tabId).getD emptyMeta)
                { spaceId := some "default", lastActiveAt := none }) } := by
        rw [assignTabToSpace, if_neg hearly]
        simp only [hns, Option.map_none', Option.getD_none]
      refine ⟨?_, ?_, ?_, ?_⟩
      · rw [heval2]
        exact hnd1
      · intro s' hs'
        rw [heval2] at hs'
        exact hne1 s' hs'
      · rw [heval2]
        exact objSet_keys_pairwise _ _ _ hpw
      · intro s' hs' t ht
        rw [heval2] at hs' ⊢
        have htne : t ≠ tabId := fun hh => hnotin s' hs' (hh ▸ ht)
        show storedSpaceId _ t = s'.id
        rw [storedSpaceId_objSet_ne _ _ _ _ htne]
        exact hmatch1 s' hs' t ht

theorem SMInv_remove (st : SMState) (spaceId : String) (h : SMInv st) :
    SMInv (removeSpace st spaceId).2 := by
  obtain ⟨hnd, hne, hpw, hmatch⟩ := h
  by_cases hdefault : spaceId = "default"
  · rw [removeSpace, if_pos hdefault]
    exact ⟨hnd, hne, hpw, hmatch⟩
  · cases hd : findSpace st.spaces "default" with
    | none =>
      rw [removeSpace, if_neg hdefault, hd]
      exact ⟨hnd, hne, hpw, hmatch⟩
    | some d =>
      cases hsp : findSpace st.spaces spaceId with
      | none =>
        rw [removeSpace, if_neg hdefault, hd, hsp]
        exact ⟨hnd, hne, hpw, hmatch⟩
      | some sp =>
        have hdmem := findSpace_mem _ _ _ hd
        have hspmem := findSpace_mem _ _ _ hsp
        have hspid_ne : spaceId ≠ "" := by
          rw [← hspmem.2]
          exact hne sp hspmem.1
        set acc0 : MigrateAcc :=
          { defaultTabIds := d.tabIds, meta := st.tabMetadata, moved := [] } with hacc0
        set acc1 := sp.tabIds.foldl migrateMemberStep acc0 with hacc1
        set acc2 := acc1.meta.foldl (migrateMetaStep spaceId) acc1 with hacc2
        set fD : Space → Space := fun s => { s with tabIds := acc2.defaultTabIds } with hfD
        have hfD_id : ∀ s, (fD s).id = s.id := fun s => rfl
        have heval : (removeSpace st spaceId).2 =
            { spaces := updateFirstSpace (st.spaces.filter (fun s => s.id ≠ spaceId))
                "default" fD
              tabMetadata := acc2.meta } := by
          rw [removeSpace, if_neg hdefault, hd, hsp]
        have pair1 : ((acc1.meta).map Prod.fst).Pairwise (· < ·) :=
          migrateMember_fold_pairwise sp.tabIds acc0 hpw
        have nd1 : ((acc1.meta).map Prod.fst).Nodup :=
          pair1.imp (fun hx => Nat.ne_of_lt hx)
        have hbind1 : ∀ t, (mapGet acc1.meta t).bind (fun m => m.spaceId) =
            if t ∈ sp.tabIds then some "default"
            else (mapGet st.tabMetadata t).bind (fun m => m.spaceId) :=
          fun t => migrateMember_fold_meta sp.tabIds acc0 t
        have hbind2 : ∀ t, (mapGet acc2.meta t).bind (fun m => m.spaceId) =
            if t ∈ (acc1.meta).map Prod.fst ∧
                (mapGet acc1.meta t).bind (fun m => m.spaceId) = some spaceId
            then some "default"
            else (mapGet acc1.meta t).bind (fun m => m.spaceId) :=
          fun t => migrateMeta_fold_meta spaceId acc1.meta acc1 t nd1
        have hdt2 : ∀ t, t ∈ acc2.defaultTabIds ↔ t ∈ acc1.defaultTabIds ∨
            (t ∈ (acc1.meta).map Prod.fst ∧
              (mapGet acc1.meta t).bind (fun m => m.spaceId) = some spaceId) :=
          fun t => migrateMeta_fold_default spaceId acc1.meta acc1 t nd1
        have hdt1 : ∀ t, t ∈ acc1.defaultTabIds ↔ t ∈ d.tabIds ∨ t ∈ sp.tabIds :=
          fun t => migrateMember_fold_default sp.tabIds acc0 t
        have hstored2 : ∀ t, (t ∈ d.tabIds ∨ t ∈ sp.tabIds ∨
              (mapGet acc1.meta t).bind (fun m => m.spaceId) = some spaceId) →
            storedSpaceId acc2.meta t = "default" := by
          intro t hcase
          unfold storedSpaceId
          rw [hbind2 t]
          by_cases hmem : t ∈ sp.tabIds
          · have hb1 : (mapGet acc1.meta t).bind (fun m => m.spaceId) = some "default" := by
              rw [hbind1, if_pos hmem]
            rw [if_neg ?hng1]
            case hng1 =>
              rintro ⟨-, hbb⟩
              rw [hb1] at hbb
              exact hdefault (Option.some_inj.mp hbb).symm
            rw [hb1]
            decide
          · have hb1 : (mapGet acc1.meta t).bind (fun m => m.spaceId) =
                (mapGet st.tabMetadata t).bind (fun m => m.spaceId) := by
              rw [hbind1, if_neg hmem]
            rcases hcase with hdm | hspm | hsel
            · have hst : storedSpaceId st.tabMetadata t = "default" := by
                have hh := hmatch d hdmem.1 t hdm
                rw [hh, hdmem.2]
              by_cases hselc : (mapGet acc1.meta t).bind (fun m => m.spaceId) = some spaceId
              · exfalso
                rw [hb1] at hselc
                have hsteq : storedSpaceId st.tabMetadata t = spaceId := by
                  unfold storedSpaceId
                  rw [hselc]
                  simp [jsOrDefault, hspid_ne]
                exact hdefault ((hst.symm.trans hsteq).symm)
              · rw [if_neg (fun hpair => hselc hpair.2)]
                rw [hb1]
                exact hst
            · exact absurd hspm hmem
            · have hk : t ∈ (acc1.meta).map Prod.fst := by
                rw [Option.bind_eq_some] at hsel
                obtain ⟨m, hm, -⟩ := hsel
                exact mapGet_mem_keys _ _ _ hm
              rw [if_pos ⟨hk, hsel⟩]
              decide
        have hidsF : ((st.spaces.filter (fun s => s.id ≠ spaceId)).map Space.id).Nodup :=
          List.Nodup.sublist (List.Sublist.map _ (List.filter_sublist _)) hnd
        refine ⟨?_, ?_, ?_, ?_⟩
        · rw [heval]
          show ((updateFirstSpace _ "default" fD).map Space.id).Nodup
          rw [updateFirstSpace_ids _ _ fD hfD_id]
          exact hidsF
        · intro s hs
          rw [heval] at hs
          rcases mem_updateFirstSpace _ _ _ _ hs with h1 | ⟨v, hv, -, rfl⟩
          · exact hne s (List.mem_of_mem_filter h1)
          · show v.id ≠ ""
            exact hne v (List.mem_of_mem_filter hv)
        · rw [heval]
          show ((acc2.meta).map Prod.fst).Pairwise (· < ·)
          exact migrateMeta_fold_pairwise spaceId acc1.meta acc1 pair1
        · intro s hs t ht
          rw [heval] at hs ⊢
          show storedSpaceId acc2.meta t = s.id
          rcases mem_updateFirstSpace _ _ _ _ hs with h1 | ⟨v, hv, hvid, rfl⟩
          · have hsmem : s ∈ st.spaces := List.mem_of_mem_filter h1
            have hsneq : s.id ≠ spaceId := by simpa using List.of_mem_filter h1
            have hstored_st : storedSpaceId st.tabMetadata t = s.id := hmatch s hsmem t ht
            have hnotsp : t ∉ sp.tabIds := by
              intro hmem
              have hh := hmatch sp hspmem.1 t hmem
              rw [hspmem.2] at hh
              exact hsneq (hstored_st.symm.trans hh)
            have hb1 : (mapGet acc1.meta t).bind (fun m => m.spaceId) =
                (mapGet st.tabMetadata t).bind (fun m => m.spaceId) := by
              rw [hbind1, if_neg hnotsp]
            unfold storedSpaceId
            rw [hbind2 t]
            rw [if_neg ?hnsel]
            case hnsel =>
              rintro ⟨-, hbb⟩
              rw [hb1] at hbb
              have hsteq : storedSpaceId st.tabMetadata t = spaceId := by
                unfold storedSpaceId
                rw [hbb]
                simp [jsOrDefault, hspid_ne]
              exact hsneq (hstored_st.symm.trans hsteq)
            rw [hb1]
            exact hstored_st
          · show storedSpaceId acc2.meta t = (fD v).id
            have hvid' : (fD v).id = "default" := by
              rw [hfD_id]
              exact hvid
            rw [hvid']
            have ht' : t ∈ acc2.defaultTabIds := ht
            rw [hdt2, hdt1] at ht'
            apply hstored2
            tauto

/-- Every reachable `StateManager` state satisfies the inductive invariant:
induction over the reachability relation, one preservation lemma per
mutation method plus the `initialize()` base case. -/
theorem sm_reachable_inv (st : SMState) (h : SMReachable st) : SMInv st := by
  induction h with
  | init ps pm now hids hmeta => exact (smInitialize_inv ps pm now hids hmeta).1
  | setMeta st tabId t _ ih => exact SMInv_setTabMetadata st tabId t ih
  | removeMeta st tabId _ ih => exact SMInv_removeTabMetadataSM st tabId ih
  | assign st tabId spaceId _ ih => exact SMInv_assign st tabId spaceId ih
  | add st name color icon now hfresh _ ih =>
    exact SMInv_addSpace st name color icon now hfresh ih
  | remove st spaceId _ ih => exact SMInv_remove st spaceId ih
  | patch st spaceId u _ ih => exact SMInv_updateSpaceSM st spaceId u ih

/-- C1 (amended): in every reachable `StateManager` state the `tabIds`
lists of any two distinct workspaces are disjoint, and right after
`initialize()` the lists moreover partition exactly the set of metadata
keys (the tracked tab ids), regardless of what membership lists were
persisted — `rebuildSpaceTabIds` rebuilds them from per-tab metadata.
(The union half of the invariant is only guaranteed at that point; see the
counterexample.) -/
theorem workspace_partition_spec :
    (∀ st : SMState, SMReachable st →
      st.spaces.Pairwise (fun s1 s2 => ∀ t, t ∈ s1.tabIds → t ∉ s2.tabIds)) ∧
    (∀ (ps : List Space) (pm : List (Nat × TabMeta)) (now : Nat),
      ((normalizeSpaces now ps).map Space.id).Nodup →
      (pm.map Prod.fst).Pairwise (· < ·) →
      (smInitialize ps pm now).spaces.Pairwise
        (fun s1 s2 => ∀ t, t ∈ s1.tabIds → t ∉ s2.tabIds) ∧
      (∀ k, (∃ s ∈ (smInitialize ps pm now).spaces, k ∈ s.tabIds) ↔
        k ∈ (smInitialize ps pm now).tabMetadata.map Prod.fst)) := by
  constructor
  · intro st h
    obtain ⟨hnd, -, -, hmatch⟩ := sm_reachable_inv st h
    exact inv_disjoint st hnd hmatch
  · intro ps pm now hids hmeta
    obtain ⟨⟨hnd, -, -, hmatch⟩, -, hpart⟩ := smInitialize_inv ps pm now hids hmeta
    exact ⟨inv_disjoint _ hnd hmatch, hpart⟩

/-- C1 witness: disjointness on a state reached by `initialize()` over
empty storage, and the exact partition right after `initialize()` over a
persisted workspace `work` carrying tabs 3 and 5 plus metadata rows for
tabs 3 and 7. -/
theorem workspace_partition_spec_witness :
    ((smInitialize [] [] 0).spaces.Pairwise
      (fun s1 s2 => ∀ t, t ∈ s1.tabIds → t ∉ s2.tabIds)) ∧
    ((smInitialize [work35Space]
        [(3, { spaceId := some "work", lastActiveAt := none }),
         (7, { spaceId := some "ghost", lastActiveAt := some 2 })] 0).spaces.Pairwise
      (fun s1 s2 => ∀ t, t ∈ s1.tabIds → t ∉ s2.tabIds)) ∧
    (∀ k, (∃ s ∈ (smInitialize [work35Space]
        [(3, { spaceId := some "work", lastActiveAt := none }),
         (7, { spaceId := some "ghost", lastActiveAt := some 2 })] 0).spaces,
        k ∈ s.tabIds) ↔
      k ∈ (smInitialize [work35Space]
        [(3, { spaceId := some "work", lastActiveAt := none }),
         (7, { spaceId := some "ghost", lastActiveAt := some 2 })] 0).tabMetadata.map
          Prod.fst) :=
  ⟨workspace_partition_spec.1 _ (SMReachable.init [] [] 0 (by decide) (by decide)),
   (workspace_partition_spec.2 [work35Space]
      [(3, { spaceId := some "work", lastActiveAt := none }),
       (7, { spaceId := some "ghost", lastActiveAt := some 2 })] 0
      (by decide) (by decide)).1,
   (workspace_partition_spec.2 [work35Space]
      [(3, { spaceId := some "work", lastActiveAt := none }),
       (7, { spaceId := some "ghost", lastActiveAt := some 2 })] 0
      (by decide) (by decide)).2⟩

/-- Counterexample to C1 as stated: the union half of the invariant does
not hold in every reachable state. Starting from `initialize()` over empty
storage, `setTabMetadata 1 {lastActiveAt: 5}` (the `TAB_ACTIVATED` write)
tracks tab 1 in the metadata, yet no workspace's `tabIds` list contains
it — the union of the member lists is a strict subset of the tracked ids. -/
theorem workspace_partition_counterexample :
    SMReachable (setTabMetadata (smInitialize [] [] 0) 1
      { spaceId := none, lastActiveAt := some 5 }) ∧
    (1 : Nat) ∈ (setTabMetadata (smInitialize [] [] 0) 1
      { spaceId := none, lastActiveAt := some 5 }).tabMetadata.map Prod.fst ∧
    ∀ s ∈ (setTabMetadata (smInitialize [] [] 0) 1
      { spaceId := none, lastActiveAt := some 5 }).spaces, (1 : Nat) ∉ s.tabIds := by
  refine ⟨SMReachable.setMeta _ 1 5
    (SMReachable.init [] [] 0 (by decide) (by decide)), ?_, ?_⟩
  · decide
  · decide

end Wfn
